import Mathlib

/-!
Shallow embedding of the infinite word-search engine (`InfiniteWordSearch`)
and the message handlers of its WebSocket server (`WordSearchServer`).

Modelling conventions:
* JS `Map`s are insertion-ordered association lists; `Map.set` replaces the
  first entry with the key in place, otherwise appends (`assocSet`).
* JS numbers are `Int`/`Nat`.  The seeded PRNG state is an exact integer;
  `random()` returns the rational `|value| / 233280`, so
  `Math.floor(random() * n)` is the natural number `(|value| * n) / 233280`.
* JS `%` is the truncated remainder `Int.tmod`; `Math.floor(x / S)` on
  integers is flooring division `Int.fdiv`.
* The JS code keys chunk maps and coordinate sets by the string `"r,c"`;
  that encoding is injective on integer pairs, so the model keys them by the
  pair itself.
-/

abbrev Pos := Int × Int

abbrev Grid := List (List String)

/-- `Map.set`: replace the first entry carrying the key in place (JS maps keep
the original insertion position on update), otherwise append. -/
def assocSet {K V : Type} [DecidableEq K] : List (K × V) → K → V → List (K × V)
  | [], k, v => [(k, v)]
  | (k', v') :: rest, k, v =>
      if k' = k then (k, v) :: rest else (k', v') :: assocSet rest k v

/-- `Map.get`: first entry carrying the key. -/
def assocLookup {K V : Type} [DecidableEq K] : List (K × V) → K → Option V
  | [], _ => none
  | (k', v') :: rest, k => if k' = k then some v' else assocLookup rest k

/-- The eight placement directions, in the declaration order of the
TypeScript `enum Direction` (which is the `Object.values` iteration order). -/
inductive Direction where
  | HORIZONTAL
  | VERTICAL
  | DIAGONAL_DOWN
  | DIAGONAL_UP
  | HORIZONTAL_REV
  | VERTICAL_REV
  | DIAGONAL_DOWN_REV
  | DIAGONAL_UP_REV
deriving DecidableEq, Repr

/-- `DirectionVectors`: (row step, column step) of each direction. -/
def DirectionVectors : Direction → Int × Int
  | .HORIZONTAL => (0, 1)
  | .VERTICAL => (1, 0)
  | .DIAGONAL_DOWN => (1, 1)
  | .DIAGONAL_UP => (-1, 1)
  | .HORIZONTAL_REV => (0, -1)
  | .VERTICAL_REV => (-1, 0)
  | .DIAGONAL_DOWN_REV => (-1, -1)
  | .DIAGONAL_UP_REV => (1, -1)

/-- `Object.values(Direction)` in declaration order. -/
def directionsList : List Direction :=
  [.HORIZONTAL, .VERTICAL, .DIAGONAL_DOWN, .DIAGONAL_UP,
   .HORIZONTAL_REV, .VERTICAL_REV, .DIAGONAL_DOWN_REV, .DIAGONAL_UP_REV]

/-- One update of the `seededRandom` stream:
`value = (value * 9301 + 49297) % 233280` with the JS `%` (truncated
remainder, sign of the dividend). -/
def randNext (value : Int) : Int :=
  Int.tmod (value * 9301 + 49297) 233280

/-- `Math.floor(random() * n)` where the preceding `random()` call left the
stream state `value` and returned `Math.abs(value / 233280)`. -/
def randFloor (value : Int) (n : Nat) : Nat :=
  value.natAbs * n / 233280

/-- `hashChunkCoords`: `(row * 73856093) ^ (col * 19349663)` with the JS
bitwise XOR, whose operands and result are 32-bit signed integers. -/
def hashChunkCoords (cr cc : Int) : Int :=
  let a := ((cr * 73856093) % (4294967296 : Int)).toNat
  let b := ((cc * 19349663) % (4294967296 : Int)).toNat
  let u := Nat.xor a b
  if u < 2147483648 then (u : Int) else (u : Int) - 4294967296

/-- `getChunkCoords`: `Math.floor(row / chunkSize)` componentwise
(mathematical floor division). -/
def getChunkCoords (S : Nat) (row col : Int) : Int × Int :=
  (Int.fdiv row S, Int.fdiv col S)

/-- `getLocalCoords`: `((row % chunkSize) + chunkSize) % chunkSize`
componentwise, with the JS `%` (truncated remainder). -/
def getLocalCoords (S : Nat) (row col : Int) : Int × Int :=
  ((Int.tmod row S + S).tmod S, (Int.tmod col S + S).tmod S)

/-- The `wordId` template literal
`` `${word}_${row}_${col}_${chunkRow}_${chunkCol}` ``. -/
def wordIdOf (word : String) (row col cr cc : Int) : String :=
  word ++ "_" ++ toString row ++ "_" ++ toString col ++ "_" ++
    toString cr ++ "_" ++ toString cc

/-- `wordId.split("_")[0]`: the characters before the first underscore. -/
def splitUnderscoreHead (s : String) : String :=
  String.mk (s.data.takeWhile (fun ch => ch ≠ '_'))

/-- `word.toUpperCase()`, modelled characterwise (ASCII uppercasing; the
dictionary is ASCII). -/
def toUpperStr (s : String) : String := String.mk (s.data.map Char.toUpper)

/-- Reading a cell of the chunk currently being generated.  During generation
every cell the generator touches lies inside that chunk (enforced by the
cross-chunk guard in `canPlaceWord`), so the source's `this.getCell(row,col)`
resolves to the current chunk's grid at the local coordinates, with no side
effect. -/
def cellGet (S : Nat) (grid : Grid) (row col : Int) : String :=
  let lc := getLocalCoords S row col
  (grid.getD lc.1.toNat []).getD lc.2.toNat ""

/-- Writing a cell of the chunk currently being generated (the source's
`this.setCell(row,col,v)`, which during generation always hits the current
chunk). -/
def cellSet (S : Nat) (grid : Grid) (row col : Int) (v : String) : Grid :=
  let lc := getLocalCoords S row col
  grid.set lc.1.toNat ((grid.getD lc.1.toNat []).set lc.2.toNat v)

structure WordPlacement where
  word : String
  startRow : Int
  startCol : Int
  direction : Direction
  chunkCoords : Int × Int
  wordId : String
  founded : Bool
deriving DecidableEq, Repr

/-- `canPlaceWord` with `checkCrossChunk = true` (its only call site during
generation): reject if the first and last cell fall in different chunks,
otherwise require every cell on the path to be empty or to hold the exact
matching letter.  (`getCell` cannot return `null` here: the chunk being
generated already exists.) -/
def canPlaceWord (S : Nat) (grid : Grid) (word : String) (row col : Int)
    (d : Direction) : Bool :=
  let dr := (DirectionVectors d).1
  let dc := (DirectionVectors d).2
  let endRow := row + ((word.length : Int) - 1) * dr
  let endCol := col + ((word.length : Int) - 1) * dc
  if getChunkCoords S row col ≠ getChunkCoords S endRow endCol then false
  else
    (List.range word.length).all fun i =>
      let cell := cellGet S grid (row + (i : Int) * dr) (col + (i : Int) * dc)
      cell == "" || cell == String.singleton (word.data.getD i 'A')

/-- `doPlaceWord`: write the word's letters along the direction, collect the
ordered cell list, and build the ledger entry (`wordId`, placement record,
coordinate list) that the source stores via `Map.set`. -/
def doPlaceWord (S : Nat) (word : String) (row col : Int) (d : Direction)
    (cr cc : Int) (grid : Grid) : Grid × String × WordPlacement × List Pos :=
  let dr := (DirectionVectors d).1
  let dc := (DirectionVectors d).2
  let step := fun (acc : Grid × List Pos) (i : Nat) =>
    let nr := row + (i : Int) * dr
    let nc := col + (i : Int) * dc
    (cellSet S acc.1 nr nc (String.singleton (word.data.getD i 'A')),
     acc.2 ++ [(nr, nc)])
  let g := (List.range word.length).foldl step (grid, [])
  let wid := wordIdOf word row col cr cc
  (g.1, wid, ⟨word, row, col, d, (cr, cc), wid, false⟩, g.2)

/-- The attempt loop of `placeWordInChunk` (up to 50 attempts; each attempt
consumes three PRNG values: direction index, local row, local column). -/
def placeWordAttempts (S : Nat) (word : String) (cr cc : Int) :
    Nat → Int → Grid → Int × Grid × Option (String × WordPlacement × List Pos)
  | 0, v, grid => (v, grid, none)
  | n + 1, v, grid =>
    let v1 := randNext v
    let dIdx := randFloor v1 8
    let d := directionsList.getD dIdx .HORIZONTAL
    let v2 := randNext v1
    let localRow := randFloor v2 S
    let v3 := randNext v2
    let localCol := randFloor v3 S
    let globalRow := cr * S + localRow
    let globalCol := cc * S + localCol
    if canPlaceWord S grid word globalRow globalCol d then
      let r := doPlaceWord S word globalRow globalCol d cr cc grid
      (v3, r.1, some r.2)
    else
      placeWordAttempts S word cr cc n v3 grid

/-- The word loop of `generateChunk`: each iteration draws a word index,
uppercases the word and runs `placeWordInChunk` (50 attempts).  A failed word
is silently skipped.  The `none` branch of the word lookup is unreachable for
a non-empty word list, since the drawn index is `< words.length`. -/
def placeWordsLoop (S : Nat) (words : List String) (cr cc : Int) :
    Nat → Int → Grid → List (String × WordPlacement × List Pos) →
      Int × Grid × List (String × WordPlacement × List Pos)
  | 0, v, grid, delta => (v, grid, delta)
  | n + 1, v, grid, delta =>
    let v1 := randNext v
    let wordIndex := randFloor v1 words.length
    match words.get? wordIndex with
    | none => placeWordsLoop S words cr cc n v1 grid delta
    | some w =>
      let word := toUpperStr w
      let r := placeWordAttempts S word cr cc 50 v1 grid
      let delta' := match r.2.2 with
        | none => delta
        | some e => delta ++ [e]
      placeWordsLoop S words cr cc n r.1 r.2.1 delta'

def alphabet : List Char := "ABCDEFGHIJKLMNOPQRSTUVWXYZ".data

/-- One row of `fillEmptyCellsInChunk`: every `""` cell draws one PRNG value
and becomes a uniformly chosen uppercase letter; non-empty cells are kept. -/
def fillRowLoop : Int → List String → Int × List String
  | v, [] => (v, [])
  | v, cell :: rest =>
    if cell = "" then
      let v' := randNext v
      let letter := String.singleton (alphabet.getD (randFloor v' 26) 'A')
      let r := fillRowLoop v' rest
      (r.1, letter :: r.2)
    else
      let r := fillRowLoop v rest
      (r.1, cell :: r.2)

/-- `fillEmptyCellsInChunk`, row-major over the S×S chunk grid. -/
def fillGridLoop : Int → Grid → Int × Grid
  | v, [] => (v, [])
  | v, row :: rest =>
    let r := fillRowLoop v row
    let r' := fillGridLoop r.1 rest
    (r'.1, r.2 :: r'.2)

/-- The chunk-content pipeline of `generateChunk` for one chunk coordinate:
seed from the coordinates, draw the word count (2-5), run the word loop on a
fresh empty S×S grid, then fill the remaining empty cells.  Returns the final
grid and the ordered list of ledger registrations (`Map.set` calls) performed.
The pipeline never reads the placement maps or other chunks, so it is a pure
function of `(S, words, cr, cc)`. -/
def genChunkData (S : Nat) (words : List String) (cr cc : Int) :
    Grid × List (String × WordPlacement × List Pos) :=
  let seed := hashChunkCoords cr cc
  let v1 := randNext seed
  let numWords := randFloor v1 4 + 2
  let empty : Grid := List.replicate S (List.replicate S "")
  let r := placeWordsLoop S words cr cc numWords v1 empty []
  let f := fillGridLoop r.1 r.2.1
  (f.2, r.2.2)

structure GameState where
  chunkSize : Nat
  words : List String
  chunks : List ((Int × Int) × Grid)
  placedWords : List (String × WordPlacement)
  wordPositions : List (String × List Pos)
  generatedChunks : List (Int × Int)
  foundWords : List (String × String × List Pos)
deriving DecidableEq, Repr

/-- `generateChunk`: no-op when the chunk was already generated; otherwise
store the generated grid, record the chunk key, and apply the generation's
ledger registrations in order.  (The source inserts the empty grid before
filling it in place; only the completed state is observable, since generation
is synchronous and touches no other chunk.) -/
def generateChunk (s : GameState) (cr cc : Int) : GameState :=
  if (cr, cc) ∈ s.generatedChunks then s
  else
    let g := genChunkData s.chunkSize s.words cr cc
    { s with
      chunks := assocSet s.chunks (cr, cc) g.1
      generatedChunks := s.generatedChunks ++ [(cr, cc)]
      placedWords := g.2.foldl (fun m e => assocSet m e.1 e.2.1) s.placedWords
      wordPositions := g.2.foldl (fun m e => assocSet m e.1 e.2.2) s.wordPositions }

/-- `ensureChunkExists`: generate the chunk if `chunks` has no entry for it. -/
def ensureChunkExists (s : GameState) (cr cc : Int) : GameState :=
  if (assocLookup s.chunks (cr, cc)).isSome then s else generateChunk s cr cc

/-- `getCell`: ensure the owning chunk, then read its local cell.  Returns
`none` exactly on the source's `return null` path (chunk map lookup misses
after `ensureChunkExists`). -/
def getCell (s : GameState) (row col : Int) : Option String × GameState :=
  let cc := getChunkCoords s.chunkSize row col
  let s1 := ensureChunkExists s cc.1 cc.2
  match assocLookup s1.chunks cc with
  | none => (none, s1)
  | some chunk =>
    let lc := getLocalCoords s.chunkSize row col
    (some ((chunk.getD lc.1.toNat []).getD lc.2.toNat ""), s1)

/-- `expandToPosition`. -/
def expandToPosition (s : GameState) (row col : Int) : GameState :=
  let cc := getChunkCoords s.chunkSize row col
  ensureChunkExists s cc.1 cc.2

/-- Inner loop of `getRegion` over one row; `cell || " "` maps both `null`
and `""` (the two falsy values a cell read can produce) to a space. -/
def getRegionRow (row c1 c2 : Int) (s : GameState) : List String × GameState :=
  (List.range (c2 + 1 - c1).toNat).foldl
    (fun (acc : List String × GameState) (j : Nat) =>
      (acc.1 ++ [match (getCell acc.2 row (c1 + (j : Int))).1 with
                 | some x => if x = "" then " " else x
                 | none => " "],
       (getCell acc.2 row (c1 + (j : Int))).2))
    ([], s)

/-- `getRegion` over the inclusive rectangle. -/
def getRegion (s : GameState) (r1 c1 r2 c2 : Int) : Grid × GameState :=
  (List.range (r2 + 1 - r1).toNat).foldl
    (fun (acc : Grid × GameState) (i : Nat) =>
      (acc.1 ++ [(getRegionRow (r1 + (i : Int)) c1 c2 acc.2).1],
       (getRegionRow (r1 + (i : Int)) c1 c2 acc.2).2))
    ([], s)

/-- `setsEqual` on the position sets (the source compares `Set`s of the
injective string keys `"r,c"`): same number of distinct members and every
member of the first is a member of the second. -/
def setsEqual (l1 l2 : List Pos) : Bool :=
  l1.dedup.length == l2.dedup.length &&
    l1.dedup.all (fun x => l2.dedup.contains x)

/-- The per-entry test of `validateSelection`'s loop: equal lengths, equal
position sets, and the ordered input equal to the stored order or to its
exact reverse.  When this fails the loop continues with the next entry. -/
def matchEntry (coords positions : List Pos) : Bool :=
  positions.length == coords.length &&
    setsEqual coords positions &&
    (coords == positions || coords == positions.reverse)

/-- The loop of `validateSelection` over `wordPositions` entries: at the
first entry passing `matchEntry`, return `null` if the placement is missing
or already found (without continuing), otherwise mark it found, record the
found word (with the placement's stored coordinate order), and return
`wordId.split("_")[0]`. -/
def validateScan (s : GameState) (coords : List Pos) :
    List (String × List Pos) → Option String × GameState
  | [] => (none, s)
  | (wid, positions) :: rest =>
    if matchEntry coords positions then
      match assocLookup s.placedWords wid with
      | none => (none, s)
      | some p =>
        if p.founded then (none, s)
        else
          (some (splitUnderscoreHead wid),
           { s with
             placedWords := assocSet s.placedWords wid { p with founded := true }
             foundWords := assocSet s.foundWords wid (p.word, positions) })
    else validateScan s coords rest

/-- `validateSelection`. -/
def validateSelection (s : GameState) (coords : List Pos) :
    Option String × GameState :=
  if coords.isEmpty then (none, s) else validateScan s coords s.wordPositions

/-- `getFoundWords`: the values of the found-words map, in insertion order. -/
def getFoundWords (s : GameState) : List (String × List Pos) :=
  s.foundWords.map (·.2)

/-- The constructor `new InfiniteWordSearch(chunkSize, words)`: empty maps,
then `generateChunk(0, 0)`. -/
def mkGameState (chunkSize : Nat) (words : List String) : GameState :=
  generateChunk ⟨chunkSize, words, [], [], [], [], []⟩ 0 0

/-- The state-mutating entry points reachable from the protocol layer. -/
inductive Op where
  | genChunk (cr cc : Int)
  | cell (row col : Int)
  | region (r1 c1 r2 c2 : Int)
  | validate (coords : List Pos)
deriving Repr

def applyOp (s : GameState) : Op → GameState
  | .genChunk cr cc => ensureChunkExists s cr cc
  | .cell row col => (getCell s row col).2
  | .region r1 c1 r2 c2 => (getRegion s r1 c1 r2 c2).2
  | .validate coords => (validateSelection s coords).2

def runOps (s : GameState) : List Op → GameState
  | [] => s
  | op :: rest => runOps (applyOp s op) rest

/-- The `chunk` response of `WordSearchServer.handleChunkRequest`. -/
structure ChunkResponse where
  chunkRow : Int
  chunkCol : Int
  data : Grid
  chunkSize : Nat
deriving DecidableEq, Repr

/-- `handleChunkRequest`: note the handler uses the literal `10`, not the
game's configured chunk size. -/
def handleChunkRequest (g : GameState) (chunkRow chunkCol : Int) :
    GameState × ChunkResponse :=
  let g1 := expandToPosition g (chunkRow * 10) (chunkCol * 10)
  let startRow := chunkRow * 10
  let startCol := chunkCol * 10
  let r := getRegion g1 startRow startCol (startRow + 9) (startCol + 9)
  (r.2, ⟨chunkRow, chunkCol, r.1, 10⟩)

structure ValidateResponse where
  result : Option String
  coords : List Pos
deriving DecidableEq, Repr

structure WordFoundMsg where
  word : String
  coords : List Pos
deriving DecidableEq, Repr

/-- `handleValidateRequest`: answer the requester with the result and the
echoed submitted coordinates; on success additionally broadcast a
`wordFound` message carrying the submitted coordinates. -/
def handleValidateRequest (g : GameState) (coords : List Pos) :
    GameState × ValidateResponse × Option WordFoundMsg :=
  let r := validateSelection g coords
  (r.2, ⟨r.1, coords⟩, r.1.map fun w => ⟨w, coords⟩)

/-- `new WordSearchServer(chunkSize, words)` constructs the game. -/
def serverInit (chunkSize : Nat) (words : List String) : GameState :=
  mkGameState chunkSize words

/-! ### Arithmetic facts about the coordinate transforms -/

lemma natAbs_tmod_eq (a b : Int) :
    (Int.tmod a b).natAbs = a.natAbs % b.natAbs := by
  cases a with
  | ofNat m =>
    cases b with
    | ofNat n => rfl
    | negSucc n => rfl
  | negSucc m =>
    cases b with
    | ofNat n =>
      show (-Int.ofNat ((m + 1) % n)).natAbs = (m + 1) % n
      rw [Int.natAbs_neg]
      rfl
    | negSucc n =>
      show (-Int.ofNat ((m + 1) % (n + 1))).natAbs = (m + 1) % (n + 1)
      rw [Int.natAbs_neg]
      rfl

lemma tmod_add_tmod_eq_emod (a b : Int) (hb : 0 < b) :
    (Int.tmod a b + b).tmod b = a % b := by
  have hb0 : b ≠ 0 := by omega
  have habs : (Int.tmod a b).natAbs = a.natAbs % b.natAbs := natAbs_tmod_eq a b
  have hlt : (Int.tmod a b).natAbs < b.natAbs := by
    rw [habs]
    exact Nat.mod_lt _ (Int.natAbs_pos.mpr hb0)
  have h1 : 0 ≤ Int.tmod a b + b := by omega
  rw [Int.tmod_eq_emod h1 (le_of_lt hb), Int.tmod_def]
  have h2 : a - b * a.tdiv b + b = a + b * (1 - a.tdiv b) := by ring
  rw [h2, Int.add_mul_emod_self_left]

lemma fdiv_mul_add_local (a b : Int) (hb : 0 < b) :
    a.fdiv b * b + (Int.tmod a b + b).tmod b = a := by
  rw [tmod_add_tmod_eq_emod a b hb, Int.fdiv_eq_ediv a (le_of_lt hb),
    Int.ediv_add_emod' a b]

/-- C3: for every pair of integers, chunk coordinate (floor division by the
chunk size) times the chunk size plus the normalized local coordinate
reconstructs the original global coordinate, on both components. -/
theorem chunk_local_roundtrip (S : Nat) (hS : 0 < S) (row col : Int) :
    ((getChunkCoords S row col).1 * S + (getLocalCoords S row col).1,
     (getChunkCoords S row col).2 * S + (getLocalCoords S row col).2)
      = (row, col) := by
  have hS' : (0 : Int) < (S : Int) := by exact_mod_cast hS
  unfold getChunkCoords getLocalCoords
  exact Prod.ext (fdiv_mul_add_local row S hS') (fdiv_mul_add_local col S hS')

/-- Witness for C3 at chunk size 10 and the negative coordinate (-7, 13). -/
theorem chunk_local_roundtrip_witness :
    0 < 10 ∧
      ((getChunkCoords 10 (-7) 13).1 * 10 + (getLocalCoords 10 (-7) 13).1,
       (getChunkCoords 10 (-7) 13).2 * 10 + (getLocalCoords 10 (-7) 13).2)
        = (-7, 13) :=
  ⟨by decide, chunk_local_roundtrip 10 (by decide) (-7) 13⟩

/-! ### Association list facts -/

lemma assocLookup_set_self {K V : Type} [DecidableEq K] (m : List (K × V))
    (k : K) (v : V) : assocLookup (assocSet m k v) k = some v := by
  induction m with
  | nil => simp [assocSet, assocLookup]
  | cons e rest ih =>
    by_cases h : e.1 = k
    · simp [assocSet, assocLookup, h]
    · simpa [assocSet, assocLookup, h] using ih

lemma assocLookup_set_ne {K V : Type} [DecidableEq K] (m : List (K × V))
    (k k' : K) (v : V) (h : k ≠ k') :
    assocLookup (assocSet m k v) k' = assocLookup m k' := by
  induction m with
  | nil => simp [assocSet, assocLookup, h]
  | cons e rest ih =>
    by_cases he : e.1 = k
    · simp [assocSet, assocLookup, he, h]
    · simp [assocSet, assocLookup, he]
      split <;> simp_all [assocLookup]

lemma assocSet_keys {K V : Type} [DecidableEq K] (m : List (K × V))
    (k : K) (v : V) :
    (assocSet m k v).map Prod.fst =
      if k ∈ m.map Prod.fst then m.map Prod.fst else m.map Prod.fst ++ [k] := by
  induction m with
  | nil => simp [assocSet]
  | cons e rest ih =>
    by_cases he : e.1 = k
    · simp [assocSet, he]
    · simp only [assocSet, if_neg he, List.map_cons, ih]
      have : (k ∈ e.1 :: rest.map Prod.fst) ↔ (k ∈ rest.map Prod.fst) := by
        constructor
        · intro h
          rcases List.mem_cons.mp h with h | h
          · exact absurd h.symm he
          · exact h
        · intro h
          exact List.mem_cons_of_mem _ h
      by_cases hk : k ∈ rest.map Prod.fst <;> simp [hk, this]

lemma mem_assocSet {K V : Type} [DecidableEq K] {m : List (K × V)}
    {k : K} {v : V} {e : K × V} (h : e ∈ assocSet m k v) :
    e = (k, v) ∨ e ∈ m := by
  induction m with
  | nil => simpa [assocSet] using h
  | cons e' rest ih =>
    by_cases he : e'.1 = k
    · simp only [assocSet, if_pos he] at h
      rcases List.mem_cons.mp h with h | h
      · exact Or.inl h
      · exact Or.inr (List.mem_cons_of_mem _ h)
    · simp only [assocSet, if_neg he] at h
      rcases List.mem_cons.mp h with h | h
      · exact Or.inr (h ▸ List.mem_cons_self _ _)
      · rcases ih h with h | h
        · exact Or.inl h
        · exact Or.inr (List.mem_cons_of_mem _ h)

lemma mem_assocSet_of_nodup {K V : Type} [DecidableEq K] {m : List (K × V)}
    {k : K} {v : V} {e : K × V} (hnd : (m.map Prod.fst).Nodup)
    (h : e ∈ assocSet m k v) : e = (k, v) ∨ (e ∈ m ∧ e.1 ≠ k) := by
  induction m with
  | nil => simpa [assocSet] using h
  | cons e' rest ih =>
    simp only [List.map_cons, List.nodup_cons] at hnd
    by_cases he : e'.1 = k
    · simp only [assocSet, if_pos he] at h
      rcases List.mem_cons.mp h with h | h
      · exact Or.inl h
      · refine Or.inr ⟨List.mem_cons_of_mem _ h, ?_⟩
        intro hek
        exact hnd.1 (he ▸ hek ▸ List.mem_map_of_mem Prod.fst h)
    · simp only [assocSet, if_neg he] at h
      rcases List.mem_cons.mp h with h | h
      · exact Or.inr ⟨h ▸ List.mem_cons_self _ _, h ▸ he⟩
      · rcases ih hnd.2 h with h | h
        · exact Or.inl h
        · exact Or.inr ⟨List.mem_cons_of_mem _ h.1, h.2⟩

lemma assocLookup_eq_none {K V : Type} [DecidableEq K] (m : List (K × V))
    (k : K) (h : k ∉ m.map Prod.fst) : assocLookup m k = none := by
  induction m with
  | nil => rfl
  | cons e rest ih =>
    simp only [List.map_cons, List.mem_cons, not_or] at h
    have hne : e.1 ≠ k := fun he => h.1 he.symm
    simp [assocLookup, hne, ih h.2]

lemma assocLookup_mem {K V : Type} [DecidableEq K] {m : List (K × V)}
    {k : K} {v : V} (h : assocLookup m k = some v) : (k, v) ∈ m := by
  induction m with
  | nil => simp [assocLookup] at h
  | cons e rest ih =>
    by_cases he : e.1 = k
    · simp only [assocLookup, if_pos he] at h
      cases h
      exact he ▸ List.mem_cons_self _ _
    · simp only [assocLookup, if_neg he] at h
      exact List.mem_cons_of_mem _ (ih h)

lemma assocLookup_of_mem_nodup {K V : Type} [DecidableEq K] {m : List (K × V)}
    {k : K} {v : V} (hnd : (m.map Prod.fst).Nodup) (h : (k, v) ∈ m) :
    assocLookup m k = some v := by
  induction m with
  | nil => simp at h
  | cons e rest ih =>
    simp only [List.map_cons, List.nodup_cons] at hnd
    rcases List.mem_cons.mp h with h | h
    · simp [assocLookup, ← h]
    · have hne : e.1 ≠ k := by
        intro he
        exact hnd.1 (he ▸ List.mem_map_of_mem Prod.fst h)
      simp [assocLookup, hne, ih hnd.2 h]

lemma assocSet_of_not_mem {K V : Type} [DecidableEq K] (m : List (K × V))
    (k : K) (v : V) (h : k ∉ m.map Prod.fst) : assocSet m k v = m ++ [(k, v)] := by
  induction m with
  | nil => rfl
  | cons e rest ih =>
    simp only [List.map_cons, List.mem_cons, not_or] at h
    have hne : e.1 ≠ k := fun he => h.1 he.symm
    simp [assocSet, hne, ih h.2]

/-- Key list resulting from a sequence of `Map.set` calls. -/
def keysUnion {K : Type} [DecidableEq K] : List K → List K → List K
  | ks, [] => ks
  | ks, k :: rest => keysUnion (if k ∈ ks then ks else ks ++ [k]) rest

lemma nodup_append_singleton {K : Type} {l : List K} {k : K}
    (h : l.Nodup) (hk : k ∉ l) : (l ++ [k]).Nodup := by
  simp [List.nodup_append, h, hk]

lemma keysUnion_nodup {K : Type} [DecidableEq K] (l : List K) (ks : List K)
    (h : ks.Nodup) : (keysUnion ks l).Nodup := by
  induction l generalizing ks with
  | nil => exact h
  | cons k rest ih =>
    show (keysUnion (if k ∈ ks then ks else ks ++ [k]) rest).Nodup
    by_cases hk : k ∈ ks
    · rw [if_pos hk]
      exact ih ks h
    · rw [if_neg hk]
      exact ih (ks ++ [k]) (nodup_append_singleton h hk)

lemma foldl_assocSet_keys {K V A : Type} [DecidableEq K] (f : A → K) (g : A → V)
    (delta : List A) (m : List (K × V)) :
    ((delta.foldl (fun m' a => assocSet m' (f a) (g a)) m).map Prod.fst) =
      keysUnion (m.map Prod.fst) (delta.map f) := by
  induction delta generalizing m with
  | nil => rfl
  | cons a rest ih =>
    simp only [List.foldl_cons, List.map_cons, keysUnion, ih, assocSet_keys]

lemma foldl_assocSet_pres {K V A : Type} [DecidableEq K] (f : A → K) (g : A → V)
    {P : K × V → Prop} (delta : List A) (m : List (K × V))
    (hm : ∀ e ∈ m, P e) (hd : ∀ a ∈ delta, P (f a, g a)) :
    ∀ e ∈ delta.foldl (fun m' a => assocSet m' (f a) (g a)) m, P e := by
  induction delta generalizing m with
  | nil => exact hm
  | cons a rest ih =>
    intro e he
    refine ih (assocSet m (f a) (g a)) ?_ (fun b hb => hd b (List.mem_cons_of_mem _ hb)) e he
    intro e' he'
    rcases mem_assocSet he' with h | h
    · exact h ▸ hd a (List.mem_cons_self _ _)
    · exact hm e' h

lemma foldl_assocSet_lookup_not_mem {K V A : Type} [DecidableEq K]
    (f : A → K) (g : A → V) (delta : List A) (m : List (K × V)) (k : K)
    (h : k ∉ delta.map f) :
    assocLookup (delta.foldl (fun m' a => assocSet m' (f a) (g a)) m) k =
      assocLookup m k := by
  induction delta generalizing m with
  | nil => rfl
  | cons a rest ih =>
    simp only [List.map_cons, List.mem_cons, not_or] at h
    simp only [List.foldl_cons]
    rw [ih _ h.2, assocLookup_set_ne _ _ _ _ (fun he => h.1 he.symm)]

lemma foldl_assocSet_sim {K V W A : Type} [DecidableEq K]
    (f : A → K) (g : A → V) (h : A → W) (P : K → V → W → Prop)
    (delta : List A) (m1 : List (K × V)) (m2 : List (K × W))
    (hkeys : m1.map Prod.fst = m2.map Prod.fst)
    (hnd : (m1.map Prod.fst).Nodup)
    (hold : ∀ e ∈ m1, ∃ w, assocLookup m2 e.1 = some w ∧ P e.1 e.2 w)
    (hnew : ∀ a ∈ delta, P (f a) (g a) (h a)) :
    ∀ e ∈ delta.foldl (fun m' a => assocSet m' (f a) (g a)) m1,
      ∃ w, assocLookup (delta.foldl (fun m' a => assocSet m' (f a) (h a)) m2) e.1
        = some w ∧ P e.1 e.2 w := by
  induction delta generalizing m1 m2 with
  | nil => exact hold
  | cons a rest ih =>
    simp only [List.foldl_cons]
    refine ih (assocSet m1 (f a) (g a)) (assocSet m2 (f a) (h a)) ?_ ?_ ?_
      (fun b hb => hnew b (List.mem_cons_of_mem _ hb))
    · rw [assocSet_keys, assocSet_keys, hkeys]
    · rw [assocSet_keys]
      split
      · exact hnd
      · rename_i hmem
        exact nodup_append_singleton hnd hmem
    · intro e he
      rcases mem_assocSet_of_nodup hnd he with he' | ⟨he', hne⟩
      · subst he'
        exact ⟨h a, assocLookup_set_self _ _ _, hnew a (List.mem_cons_self _ _)⟩
      · obtain ⟨w, hw, hP⟩ := hold e he'
        exact ⟨w, by rw [assocLookup_set_ne _ _ _ _ (fun hx => hne hx.symm)]; exact hw, hP⟩

/-! ### PRNG bounds -/

lemma randNext_natAbs_lt (v : Int) : (randNext v).natAbs < 233280 := by
  unfold randNext
  rw [natAbs_tmod_eq]
  exact Nat.mod_lt _ (by decide)

lemma randFloor_lt {v : Int} (hv : v.natAbs < 233280) {n : Nat} (hn : 0 < n) :
    randFloor v n < n := by
  unfold randFloor
  rw [Nat.div_lt_iff_lt_mul (by decide : 0 < 233280)]
  calc v.natAbs * n < 233280 * n := (Nat.mul_lt_mul_right hn).mpr hv
    _ = n * 233280 := Nat.mul_comm _ _

/-! ### Coordinate arithmetic -/

lemma local_nonneg_lt (a : Int) (S : Nat) (hS : 0 < S) :
    0 ≤ (Int.tmod a S + S).tmod S ∧ (Int.tmod a S + S).tmod S < S := by
  have hS' : (0 : Int) < (S : Int) := by exact_mod_cast hS
  rw [tmod_add_tmod_eq_emod a S hS']
  exact ⟨Int.emod_nonneg a (by omega), Int.emod_lt_of_pos a hS'⟩

lemma chunkOf_mul_add (c : Int) (l : Nat) (S : Nat) (hl : l < S) :
    Int.fdiv (c * S + l) S = c := by
  have hS' : (0 : Int) < (S : Int) := by exact_mod_cast Nat.lt_of_le_of_lt (Nat.zero_le _) hl
  rw [Int.fdiv_eq_ediv _ (le_of_lt hS')]
  have h1 : c * (S : Int) + l = l + c * S := by ring
  rw [h1, Int.add_mul_ediv_right _ _ (by omega : (S : Int) ≠ 0)]
  have h2 : (l : Int) / S = 0 := by
    apply Int.ediv_eq_zero_of_lt (by exact_mod_cast Nat.zero_le _)
    exact_mod_cast hl
  omega

lemma localOf_mul_add (c : Int) (l : Nat) (S : Nat) (hl : l < S) :
    (Int.tmod (c * S + l) S + S).tmod S = l := by
  have hS' : (0 : Int) < (S : Int) := by exact_mod_cast Nat.lt_of_le_of_lt (Nat.zero_le _) hl
  rw [tmod_add_tmod_eq_emod _ S hS']
  have h1 : c * (S : Int) + l = l + c * S := by ring
  rw [h1, Int.add_mul_emod_self]
  exact Int.emod_eq_of_lt (by exact_mod_cast Nat.zero_le _) (by exact_mod_cast hl)

lemma fdiv_le_fdiv_of_le {a b c : Int} (hc : 0 < c) (h : a ≤ b) :
    a.fdiv c ≤ b.fdiv c := by
  rw [Int.fdiv_eq_ediv _ (le_of_lt hc), Int.fdiv_eq_ediv _ (le_of_lt hc)]
  exact Int.ediv_le_ediv hc h

lemma fdiv_eq_of_between {S a b x : Int} (hS : 0 < S)
    (hab : a.fdiv S = b.fdiv S) (h1 : a ≤ x) (h2 : x ≤ b) :
    x.fdiv S = a.fdiv S := by
  have ha := fdiv_le_fdiv_of_le hS h1
  have hb := fdiv_le_fdiv_of_le hS h2
  omega

lemma countP_eq_one_of_nodup {A : Type} [DecidableEq A] {l : List A} {x : A}
    (hnd : l.Nodup) (h : x ∈ l) : l.countP (fun y => decide (y = x)) = 1 := by
  induction l with
  | nil => simp at h
  | cons a rest ih =>
    simp only [List.nodup_cons] at hnd
    rcases List.mem_cons.mp h with h' | h'
    · subst h'
      have h0 : rest.countP (fun y => decide (y = x)) = 0 :=
        List.countP_eq_zero.mpr (fun b hb => by simp; rintro rfl; exact hnd.1 hb)
      rw [List.countP_cons, h0]
      simp
    · have hax : a ≠ x := by
        rintro rfl
        exact hnd.1 h'
      rw [List.countP_cons, ih hnd.2 h']
      simp [hax]

lemma assocLookup_isSome_of_mem_keys {K V : Type} [DecidableEq K]
    {m : List (K × V)} {k : K} (h : k ∈ m.map Prod.fst) :
    (assocLookup m k).isSome := by
  induction m with
  | nil => simp at h
  | cons e rest ih =>
    by_cases he : e.1 = k
    · simp [assocLookup, he]
    · rcases List.mem_cons.mp h with h' | h'
      · exact absurd h'.symm he
      · simpa [assocLookup, he] using ih h'

/-- C2: generating the same chunk coordinate in two store instances with the
same chunk size and word list produces the same letter grid, and both
instances register the exact same sequence of placement-ledger entries
(same words, anchors, directions and coordinate lists), computed by the pure
function `genChunkData` of the chunk coordinates alone. -/
theorem generateChunk_deterministic (s1 s2 : GameState) (cr cc : Int)
    (hsize : s1.chunkSize = s2.chunkSize) (hwords : s1.words = s2.words)
    (h1 : (cr, cc) ∉ s1.generatedChunks) (h2 : (cr, cc) ∉ s2.generatedChunks) :
    assocLookup (generateChunk s1 cr cc).chunks (cr, cc) =
      assocLookup (generateChunk s2 cr cc).chunks (cr, cc) ∧
    assocLookup (generateChunk s1 cr cc).chunks (cr, cc) =
      some (genChunkData s1.chunkSize s1.words cr cc).1 ∧
    (generateChunk s1 cr cc).placedWords =
      (genChunkData s1.chunkSize s1.words cr cc).2.foldl
        (fun m e => assocSet m e.1 e.2.1) s1.placedWords ∧
    (generateChunk s2 cr cc).placedWords =
      (genChunkData s1.chunkSize s1.words cr cc).2.foldl
        (fun m e => assocSet m e.1 e.2.1) s2.placedWords ∧
    (generateChunk s1 cr cc).wordPositions =
      (genChunkData s1.chunkSize s1.words cr cc).2.foldl
        (fun m e => assocSet m e.1 e.2.2) s1.wordPositions ∧
    (generateChunk s2 cr cc).wordPositions =
      (genChunkData s1.chunkSize s1.words cr cc).2.foldl
        (fun m e => assocSet m e.1 e.2.2) s2.wordPositions := by
  have e1 : generateChunk s1 cr cc =
      { s1 with
        chunks := assocSet s1.chunks (cr, cc) (genChunkData s1.chunkSize s1.words cr cc).1
        generatedChunks := s1.generatedChunks ++ [(cr, cc)]
        placedWords := (genChunkData s1.chunkSize s1.words cr cc).2.foldl
          (fun m e => assocSet m e.1 e.2.1) s1.placedWords
        wordPositions := (genChunkData s1.chunkSize s1.words cr cc).2.foldl
          (fun m e => assocSet m e.1 e.2.2) s1.wordPositions } := by
    rw [generateChunk, if_neg h1]
  have e2 : generateChunk s2 cr cc =
      { s2 with
        chunks := assocSet s2.chunks (cr, cc) (genChunkData s1.chunkSize s1.words cr cc).1
        generatedChunks := s2.generatedChunks ++ [(cr, cc)]
        placedWords := (genChunkData s1.chunkSize s1.words cr cc).2.foldl
          (fun m e => assocSet m e.1 e.2.1) s2.placedWords
        wordPositions := (genChunkData s1.chunkSize s1.words cr cc).2.foldl
          (fun m e => assocSet m e.1 e.2.2) s2.wordPositions } := by
    rw [generateChunk, if_neg h2, hsize, hwords]
  rw [e1, e2]
  exact ⟨by simp [assocLookup_set_self], by simp [assocLookup_set_self],
    rfl, rfl, rfl, rfl⟩

/-- Witness for C2: two independent instances over the word list `["AB"]`
(the second having additionally generated chunk (3,5)) produce identical
content for chunk (1,1). -/
theorem generateChunk_deterministic_witness :
    assocLookup (generateChunk (mkGameState 2 ["AB"]) 1 1).chunks (1, 1) =
      assocLookup
        (generateChunk (ensureChunkExists (mkGameState 2 ["AB"]) 3 5) 1 1).chunks
        (1, 1) :=
  (generateChunk_deterministic (mkGameState 2 ["AB"])
    (ensureChunkExists (mkGameState 2 ["AB"]) 3 5) 1 1
    (by decide) (by decide) (by decide) (by decide)).1

/-- C4: chunk generation is idempotent.  After `generateChunk`, a second
`generateChunk` or `ensureChunkExists` call for the same coordinate leaves
the whole state (letter content, ledger, found words) unchanged, and the
store holds exactly one chunk entry and one generated-chunk record for that
coordinate. -/
theorem generateChunk_idempotent (s : GameState) (cr cc : Int)
    (hk : s.chunks.map Prod.fst = s.generatedChunks)
    (hnd : s.generatedChunks.Nodup) :
    generateChunk (generateChunk s cr cc) cr cc = generateChunk s cr cc ∧
    ensureChunkExists (generateChunk s cr cc) cr cc = generateChunk s cr cc ∧
    ((generateChunk s cr cc).chunks.map Prod.fst).countP (fun k => decide (k = (cr, cc))) = 1 ∧
    (generateChunk s cr cc).generatedChunks.countP (fun k => decide (k = (cr, cc))) = 1 := by
  by_cases hmem : (cr, cc) ∈ s.generatedChunks
  · have e0 : generateChunk s cr cc = s := by rw [generateChunk, if_pos hmem]
    rw [e0]
    refine ⟨e0, ?_, ?_, ?_⟩
    · rw [ensureChunkExists]
      have : (assocLookup s.chunks (cr, cc)).isSome :=
        assocLookup_isSome_of_mem_keys (hk ▸ hmem)
      simp [this, e0]
    · rw [hk]
      exact countP_eq_one_of_nodup hnd hmem
    · exact countP_eq_one_of_nodup hnd hmem
  · have e1 : generateChunk s cr cc =
        { s with
          chunks := assocSet s.chunks (cr, cc) (genChunkData s.chunkSize s.words cr cc).1
          generatedChunks := s.generatedChunks ++ [(cr, cc)]
          placedWords := (genChunkData s.chunkSize s.words cr cc).2.foldl
            (fun m e => assocSet m e.1 e.2.1) s.placedWords
          wordPositions := (genChunkData s.chunkSize s.words cr cc).2.foldl
            (fun m e => assocSet m e.1 e.2.2) s.wordPositions } := by
      rw [generateChunk, if_neg hmem]
    have hmem' : (cr, cc) ∈ (generateChunk s cr cc).generatedChunks := by
      rw [e1]
      simp
    have hkeys : (generateChunk s cr cc).chunks.map Prod.fst =
        s.chunks.map Prod.fst ++ [(cr, cc)] := by
      rw [e1]
      simp only
      rw [assocSet_keys, if_neg (hk ▸ hmem)]
    refine ⟨?_, ?_, ?_, ?_⟩
    · rw [generateChunk, if_pos hmem']
    · rw [ensureChunkExists]
      have : (assocLookup (generateChunk s cr cc).chunks (cr, cc)).isSome := by
        rw [e1]
        simp [assocLookup_set_self]
      simp [this]
    · rw [hkeys, List.countP_append]
      rw [List.countP_eq_zero.mpr (fun b hb => by simp; rintro rfl; exact (hk ▸ hmem) hb)]
      simp
    · rw [e1]
      simp only [List.countP_append]
      rw [List.countP_eq_zero.mpr (fun b hb => by simp; rintro rfl; exact hmem hb)]
      simp

/-- Witness for C4 at chunk coordinate (0,5) over the word list `["AB"]`. -/
theorem generateChunk_idempotent_witness :
    generateChunk (generateChunk (mkGameState 2 ["AB"]) 0 5) 0 5 =
        generateChunk (mkGameState 2 ["AB"]) 0 5 ∧
    ensureChunkExists (generateChunk (mkGameState 2 ["AB"]) 0 5) 0 5 =
        generateChunk (mkGameState 2 ["AB"]) 0 5 ∧
    ((generateChunk (mkGameState 2 ["AB"]) 0 5).chunks.map Prod.fst).countP
        (fun k => decide (k = (0, 5))) = 1 ∧
    (generateChunk (mkGameState 2 ["AB"]) 0 5).generatedChunks.countP
        (fun k => decide (k = (0, 5))) = 1 :=
  generateChunk_idempotent (mkGameState 2 ["AB"]) 0 5 (by decide) (by decide)

/-! ### Letter and grid wellformedness -/

def goodChar (ch : Char) : Prop := 'A' ≤ ch ∧ ch ≤ 'Z'

/-- A cell holding exactly one uppercase A-Z letter. -/
def goodCellStr (cell : String) : Prop :=
  cell.data.length = 1 ∧ ∀ ch ∈ cell.data, goodChar ch

/-- A cell as it may appear mid-generation: still empty, or a letter. -/
def midGenCell (cell : String) : Prop := cell = "" ∨ goodCellStr cell

def gridRows (S : Nat) (g : Grid) : Prop :=
  g.length = S ∧ ∀ row ∈ g, row.length = S

def midGenGrid (S : Nat) (g : Grid) : Prop :=
  gridRows S g ∧ ∀ row ∈ g, ∀ cell ∈ row, midGenCell cell

def goodGrid (S : Nat) (g : Grid) : Prop :=
  gridRows S g ∧ ∀ row ∈ g, ∀ cell ∈ row, goodCellStr cell

/-- The configured dictionary uppercases to plain A-Z words (true of the
repository's `words.txt` entries and of the fallback list). -/
def goodWordList (words : List String) : Prop :=
  ∀ w ∈ words, ∀ ch ∈ (toUpperStr w).data, goodChar ch

instance (ch : Char) : Decidable (goodChar ch) := by
  unfold goodChar
  infer_instance

instance (cell : String) : Decidable (goodCellStr cell) := by
  unfold goodCellStr
  infer_instance

instance (words : List String) : Decidable (goodWordList words) := by
  unfold goodWordList
  infer_instance

lemma goodChar_singleton {ch : Char} (h : goodChar ch) :
    goodCellStr (String.singleton ch) := by
  constructor
  · rfl
  · intro c hc
    have : c = ch := by
      simpa [String.singleton] using hc
    exact this ▸ h

lemma goodChar_ne_underscore {ch : Char} (h : goodChar ch) : ch ≠ '_' := by
  rintro rfl
  exact absurd h.2 (by decide)

lemma local_toNat_lt {S : Nat} (hS : 0 < S) (a : Int) :
    ((Int.tmod a S + S).tmod S).toNat < S := by
  obtain ⟨h1, h2⟩ := local_nonneg_lt a S hS
  omega

lemma cellSet_gridRows {S : Nat} (hS : 0 < S) {g : Grid} (hg : gridRows S g)
    (row col : Int) (v : String) : gridRows S (cellSet S g row col v) := by
  refine ⟨by simpa [cellSet] using hg.1, ?_⟩
  intro r hr
  rcases List.mem_or_eq_of_mem_set hr with hr | hr
  · exact hg.2 r hr
  · subst hr
    simp only [List.length_set]
    have hi : (getLocalCoords S row col).1.toNat < g.length := by
      rw [hg.1]
      exact local_toNat_lt hS row
    rw [List.getD_eq_getElem _ _ hi]
    exact hg.2 _ (List.getElem_mem hi)

lemma cellSet_cells {S : Nat} {g : Grid} {P : String → Prop}
    (hg : ∀ row ∈ g, ∀ cell ∈ row, P cell) (row col : Int) {v : String}
    (hv : P v) : ∀ r ∈ cellSet S g row col v, ∀ cell ∈ r, P cell := by
  intro r hr
  rcases List.mem_or_eq_of_mem_set hr with hr | hr
  · exact hg r hr
  · subst hr
    intro cell hc
    rcases List.mem_or_eq_of_mem_set hc with hc | hc
    · by_cases hi : (getLocalCoords S row col).1.toNat < g.length
      · rw [List.getD_eq_getElem _ _ hi] at hc
        exact hg _ (List.getElem_mem hi) cell hc
      · rw [List.getD_eq_default _ _ (Nat.le_of_not_lt hi)] at hc
        simp at hc
    · exact hc ▸ hv

/-! ### Placement pipeline facts -/

lemma foldl_pair_split {A B C : Type} (f : A → C → A) (h : C → B) (l : List C)
    (a : A) (bs : List B) :
    l.foldl (fun acc i => (f acc.1 i, acc.2 ++ [h i])) (a, bs) =
      (l.foldl f a, bs ++ l.map h) := by
  induction l generalizing a bs with
  | nil => simp
  | cons c rest ih => simp [ih]

lemma place_step_foldl (S : Nat) (word : String) (row col dr dc : Int) :
    ∀ (l : List Nat) (grid : Grid) (ps : List Pos),
      l.foldl (fun (acc : Grid × List Pos) (i : Nat) =>
        (cellSet S acc.1 (row + (i : Int) * dr) (col + (i : Int) * dc)
           (String.singleton (word.data.getD i 'A')),
         acc.2 ++ [(row + (i : Int) * dr, col + (i : Int) * dc)])) (grid, ps) =
      (l.foldl (fun g (i : Nat) =>
        cellSet S g (row + (i : Int) * dr) (col + (i : Int) * dc)
          (String.singleton (word.data.getD i 'A'))) grid,
       ps ++ l.map (fun (i : Nat) =>
         (row + (i : Int) * dr, col + (i : Int) * dc))) := by
  intro l
  induction l with
  | nil => simp
  | cons c rest ih =>
    intro grid ps
    simp only [List.foldl_cons, List.map_cons]
    rw [ih]
    simp

/-- The grid component of `doPlaceWord` is the fold of the letter writes, and
the recorded coordinate list enumerates the word's cells anchor-to-tail. -/
lemma doPlaceWord_eq (S : Nat) (word : String) (row col : Int)
    (d : Direction) (cr cc : Int) (grid : Grid) :
    doPlaceWord S word row col d cr cc grid =
      ((List.range word.length).foldl (fun g (i : Nat) =>
        cellSet S g (row + (i : Int) * (DirectionVectors d).1)
          (col + (i : Int) * (DirectionVectors d).2)
          (String.singleton (word.data.getD i 'A'))) grid,
       wordIdOf word row col cr cc,
       ⟨word, row, col, d, (cr, cc), wordIdOf word row col cr cc, false⟩,
       (List.range word.length).map (fun (i : Nat) =>
         (row + (i : Int) * (DirectionVectors d).1,
          col + (i : Int) * (DirectionVectors d).2))) := by
  simp only [doPlaceWord]
  rw [place_step_foldl]
  simp

lemma foldl_cellSet_midgen {S : Nat} (hS : 0 < S) (l : List Nat)
    (rowf colf : Nat → Int) (vf : Nat → String)
    (hv : ∀ i ∈ l, goodCellStr (vf i)) {g : Grid} (hg : midGenGrid S g) :
    midGenGrid S (l.foldl (fun g' i => cellSet S g' (rowf i) (colf i) (vf i)) g) := by
  induction l generalizing g with
  | nil => exact hg
  | cons i rest ih =>
    simp only [List.foldl_cons]
    refine ih (fun j hj => hv j (List.mem_cons_of_mem _ hj)) ?_
    exact ⟨cellSet_gridRows hS hg.1 _ _ _,
      cellSet_cells hg.2 _ _ (Or.inr (hv i (List.mem_cons_self _ _)))⟩

lemma fdiv_const_of_step {S : Int} (hS : 0 < S) (u du : Int) (n : Nat)
    (hdu : du = 0 ∨ du = 1 ∨ du = -1)
    (hend : (u + ((n : Int) - 1) * du).fdiv S = u.fdiv S) :
    ∀ i : Nat, i < n → (u + (i : Int) * du).fdiv S = u.fdiv S := by
  intro i hi
  rcases hdu with rfl | rfl | rfl
  · simp
  · simp only [mul_one] at hend ⊢
    exact fdiv_eq_of_between hS hend.symm (by omega) (by omega)
  · have h1 : u + ((n : Int) - 1) * (-1) = u - ((n : Int) - 1) := by ring
    have h2 : u + (i : Int) * (-1) = u - (i : Int) := by ring
    rw [h1] at hend
    rw [h2]
    rw [fdiv_eq_of_between hS hend (by omega) (by omega)]
    exact hend

lemma dirVec_cases (d : Direction) :
    ((DirectionVectors d).1 = 0 ∨ (DirectionVectors d).1 = 1 ∨
      (DirectionVectors d).1 = -1) ∧
    ((DirectionVectors d).2 = 0 ∨ (DirectionVectors d).2 = 1 ∨
      (DirectionVectors d).2 = -1) := by
  cases d <;> simp [DirectionVectors]

lemma canPlaceWord_contained {S : Nat} (hS : 0 < S) {grid : Grid}
    {word : String} {row col : Int} {d : Direction}
    (h : canPlaceWord S grid word row col d = true) :
    ∀ i : Nat, i < word.length →
      getChunkCoords S (row + (i : Int) * (DirectionVectors d).1)
          (col + (i : Int) * (DirectionVectors d).2) =
        getChunkCoords S row col := by
  have hS' : (0 : Int) < (S : Int) := by exact_mod_cast hS
  by_cases hg : getChunkCoords S row col =
      getChunkCoords S (row + ((word.length : Int) - 1) * (DirectionVectors d).1)
        (col + ((word.length : Int) - 1) * (DirectionVectors d).2)
  · intro i hi
    have hr := congrArg Prod.fst hg
    have hc := congrArg Prod.snd hg
    simp only [getChunkCoords] at hr hc ⊢
    refine Prod.ext ?_ ?_
    · exact fdiv_const_of_step hS' row _ word.length (dirVec_cases d).1 hr.symm i hi
    · exact fdiv_const_of_step hS' col _ word.length (dirVec_cases d).2 hc.symm i hi
  · exfalso
    rw [canPlaceWord] at h
    simp only [if_neg, ne_eq] at h
    rw [if_pos (fun he => hg he)] at h
    exact Bool.false_ne_true h

lemma getChunkCoords_anchor {S : Nat} (hS : 0 < S) (cr cc : Int) {lr lc : Nat}
    (hlr : lr < S) (hlc : lc < S) :
    getChunkCoords S (cr * S + lr) (cc * S + lc) = (cr, cc) :=
  Prod.ext (chunkOf_mul_add cr lr S hlr) (chunkOf_mul_add cc lc S hlc)

/-- What generation records about one placement: the entry belongs to the
generated chunk, its coordinate list is as long as the word, every cell of it
lies in that chunk, and its key is the placement's `wordId`. -/
def entryOk (S : Nat) (cr cc : Int) (w : String)
    (e : String × WordPlacement × List Pos) : Prop :=
  e.2.1.word = w ∧ e.2.1.chunkCoords = (cr, cc) ∧ e.2.1.founded = false ∧
  e.1 = wordIdOf w e.2.1.startRow e.2.1.startCol cr cc ∧
  e.2.2.length = w.length ∧
  ∀ q ∈ e.2.2, getChunkCoords S q.1 q.2 = (cr, cc)

lemma word_letter_good {word : String} (hword : ∀ ch ∈ word.data, goodChar ch)
    {i : Nat} (hi : i < word.length) : goodChar (word.data.getD i 'A') := by
  have hlen : i < word.data.length := hi
  rw [List.getD_eq_getElem _ _ hlen]
  exact hword _ (List.getElem_mem hlen)

lemma placeWordAttempts_ok {S : Nat} (hS : 0 < S) {word : String}
    (hword : ∀ ch ∈ word.data, goodChar ch) (cr cc : Int) :
    ∀ (n : Nat) (v : Int) (grid : Grid), midGenGrid S grid →
      midGenGrid S (placeWordAttempts S word cr cc n v grid).2.1 ∧
      ∀ e, (placeWordAttempts S word cr cc n v grid).2.2 = some e →
        entryOk S cr cc word e := by
  intro n
  induction n with
  | zero =>
    intro v grid hg
    refine ⟨hg, ?_⟩
    intro e he
    simp [placeWordAttempts] at he
  | succ n ih =>
    intro v grid hg
    simp only [placeWordAttempts]
    split
    · rename_i hcan
      rw [doPlaceWord_eq]
      dsimp only
      constructor
      · exact foldl_cellSet_midgen hS _ _ _ _
          (fun i hi => goodChar_singleton
            (word_letter_good hword (List.mem_range.mp hi))) hg
      · intro e he
        simp only [Option.some.injEq] at he
        subst he
        have hlr : randFloor (randNext (randNext (randNext v))) S < S :=
          randFloor_lt (randNext_natAbs_lt _) hS
        have hlr2 : randFloor (randNext (randNext v)) S < S :=
          randFloor_lt (randNext_natAbs_lt _) hS
        have hanchor :
            getChunkCoords S (cr * S + (randFloor (randNext (randNext v)) S : Nat))
              (cc * S + (randFloor (randNext (randNext (randNext v))) S : Nat)) =
              (cr, cc) :=
          getChunkCoords_anchor hS cr cc hlr2 hlr
        refine ⟨rfl, rfl, rfl, rfl, by simp, ?_⟩
        intro q hq
        simp only [List.mem_map, List.mem_range] at hq
        obtain ⟨i, hi, rfl⟩ := hq
        rw [canPlaceWord_contained hS hcan i hi]
        exact hanchor
    · exact ih _ _ hg

/-- Every ledger registration performed while generating chunk `(cr, cc)`
places some uppercased dictionary word and satisfies `entryOk`. -/
def deltaOk (S : Nat) (words : List String) (cr cc : Int)
    (e : String × WordPlacement × List Pos) : Prop :=
  ∃ w0 ∈ words, entryOk S cr cc (toUpperStr w0) e

lemma placeWordsLoop_ok {S : Nat} (hS : 0 < S) {words : List String}
    (hw : goodWordList words) (cr cc : Int) :
    ∀ (n : Nat) (v : Int) (grid : Grid)
      (delta : List (String × WordPlacement × List Pos)),
      midGenGrid S grid → (∀ e ∈ delta, deltaOk S words cr cc e) →
      midGenGrid S (placeWordsLoop S words cr cc n v grid delta).2.1 ∧
      ∀ e ∈ (placeWordsLoop S words cr cc n v grid delta).2.2,
        deltaOk S words cr cc e := by
  intro n
  induction n with
  | zero =>
    intro v grid delta hg hd
    exact ⟨hg, hd⟩
  | succ n ih =>
    intro v grid delta hg hd
    simp only [placeWordsLoop]
    split
    · exact ih _ _ _ hg hd
    · rename_i w hw'
      have hmem : w ∈ words := List.get?_mem hw'
      have hword : ∀ ch ∈ (toUpperStr w).data, goodChar ch := hw w hmem
      obtain ⟨hg', he'⟩ :=
        placeWordAttempts_ok hS hword cr cc 50 (randNext v) grid hg
      refine ih _ _ _ hg' ?_
      intro e he
      rcases hcase : (placeWordAttempts S (toUpperStr w) cr cc 50 (randNext v) grid).2.2 with _ | e'
      · rw [hcase] at he
        exact hd e he
      · rw [hcase] at he
        rcases List.mem_append.mp he with h | h
        · exact hd e h
        · have : e = e' := by simpa using h
          exact ⟨w, hmem, this ▸ he' e' hcase⟩

lemma alphabet_letter_good (i : Nat) : goodChar (alphabet.getD i 'A') := by
  by_cases hi : i < alphabet.length
  · rw [List.getD_eq_getElem _ _ hi]
    have hall : ∀ ch ∈ alphabet, goodChar ch := by decide
    exact hall _ (List.getElem_mem hi)
  · rw [List.getD_eq_default _ _ (Nat.le_of_not_lt hi)]
    exact ⟨by decide, by decide⟩

lemma fillRowLoop_ok : ∀ (v : Int) (row : List String),
    (∀ cell ∈ row, midGenCell cell) →
    (fillRowLoop v row).2.length = row.length ∧
    ∀ cell ∈ (fillRowLoop v row).2, goodCellStr cell := by
  intro v row
  induction row generalizing v with
  | nil =>
    intro _
    exact ⟨rfl, by simp [fillRowLoop]⟩
  | cons cell rest ih =>
    intro hcells
    by_cases hc : cell = ""
    · simp only [fillRowLoop, if_pos hc]
      obtain ⟨hl, hg⟩ := ih (randNext v) (fun c hc' => hcells c (List.mem_cons_of_mem _ hc'))
      refine ⟨by simpa using hl, ?_⟩
      intro c hc'
      rcases List.mem_cons.mp hc' with h | h
      · exact h ▸ goodChar_singleton (alphabet_letter_good _)
      · exact hg c h
    · simp only [fillRowLoop, if_neg hc]
      obtain ⟨hl, hg⟩ := ih v (fun c hc' => hcells c (List.mem_cons_of_mem _ hc'))
      refine ⟨by simpa using hl, ?_⟩
      intro c hc'
      rcases List.mem_cons.mp hc' with h | h
      · rcases hcells cell (List.mem_cons_self _ _) with h' | h'
        · exact absurd h' hc
        · exact h ▸ h'
      · exact hg c h

lemma fillGridLoop_ok {S : Nat} : ∀ (v : Int) (g : Grid),
    (∀ row ∈ g, row.length = S) →
    (∀ row ∈ g, ∀ cell ∈ row, midGenCell cell) →
    (fillGridLoop v g).2.length = g.length ∧
    (∀ row ∈ (fillGridLoop v g).2, row.length = S) ∧
    (∀ row ∈ (fillGridLoop v g).2, ∀ cell ∈ row, goodCellStr cell) := by
  intro v g
  induction g generalizing v with
  | nil =>
    intro _ _
    refine ⟨rfl, ?_, ?_⟩ <;> simp [fillGridLoop]
  | cons row rest ih =>
    intro hlen hcells
    obtain ⟨hl, hgood⟩ := fillRowLoop_ok v row (hcells row (List.mem_cons_self _ _))
    obtain ⟨ihl, ihrows, ihcells⟩ := ih (fillRowLoop v row).1
      (fun r hr => hlen r (List.mem_cons_of_mem _ hr))
      (fun r hr => hcells r (List.mem_cons_of_mem _ hr))
    refine ⟨?_, ?_, ?_⟩
    · simp [fillGridLoop, ihl]
    · intro r hr
      simp only [fillGridLoop] at hr
      rcases List.mem_cons.mp hr with h | h
      · rw [h, hl]
        exact hlen row (List.mem_cons_self _ _)
      · exact ihrows r h
    · intro r hr
      simp only [fillGridLoop] at hr
      rcases List.mem_cons.mp hr with h | h
      · exact h ▸ hgood
      · exact ihcells r h

/-- The generated chunk grid is a full S×S grid of single uppercase letters,
and every ledger registration it performs is a well-formed placement of an
uppercased dictionary word lying inside the chunk. -/
lemma genChunkData_ok {S : Nat} (hS : 0 < S) {words : List String}
    (hw : goodWordList words) (cr cc : Int) :
    goodGrid S (genChunkData S words cr cc).1 ∧
    ∀ e ∈ (genChunkData S words cr cc).2, deltaOk S words cr cc e := by
  simp only [genChunkData]
  have hempty : midGenGrid S (List.replicate S (List.replicate S "")) := by
    refine ⟨⟨List.length_replicate _ _, ?_⟩, ?_⟩
    · intro r hr
      rw [List.eq_of_mem_replicate hr]
      exact List.length_replicate _ _
    · intro r hr cell hc
      rw [List.eq_of_mem_replicate hr] at hc
      exact Or.inl (List.eq_of_mem_replicate hc)
  obtain ⟨hg, hd⟩ := placeWordsLoop_ok hS hw cr cc
    (randFloor (randNext (hashChunkCoords cr cc)) 4 + 2)
    (randNext (hashChunkCoords cr cc))
    (List.replicate S (List.replicate S "")) [] hempty (by simp)
  obtain ⟨hfl, hfrows, hfcells⟩ := fillGridLoop_ok
    (placeWordsLoop S words cr cc
      (randFloor (randNext (hashChunkCoords cr cc)) 4 + 2)
      (randNext (hashChunkCoords cr cc))
      (List.replicate S (List.replicate S "")) []).1
    (placeWordsLoop S words cr cc
      (randFloor (randNext (hashChunkCoords cr cc)) 4 + 2)
      (randNext (hashChunkCoords cr cc))
      (List.replicate S (List.replicate S "")) []).2.1
    hg.1.2 hg.2
  refine ⟨⟨⟨?_, hfrows⟩, hfcells⟩, hd⟩
  rw [hfl, hg.1.1]

/-! ### State invariant -/

lemma takeWhile_before_underscore : ∀ (l1 l2 : List Char),
    (∀ c ∈ l1, c ≠ '_') →
    (l1 ++ '_' :: l2).takeWhile (fun ch => ch ≠ '_') = l1 := by
  intro l1 l2 h
  induction l1 with
  | nil => simp [List.takeWhile]
  | cons c rest ih =>
    have hc : c ≠ '_' := h c (List.mem_cons_self _ _)
    simp only [List.cons_append, List.takeWhile_cons, decide_eq_true_eq]
    rw [if_pos hc, ih (fun c' hc' => h c' (List.mem_cons_of_mem _ hc'))]

lemma splitUnderscoreHead_wordIdOf (w : String) (r c cr cc : Int)
    (h : ∀ ch ∈ w.data, ch ≠ '_') :
    splitUnderscoreHead (wordIdOf w r c cr cc) = w := by
  unfold splitUnderscoreHead wordIdOf
  have hdata : (w ++ "_" ++ toString r ++ "_" ++ toString c ++ "_" ++
      toString cr ++ "_" ++ toString cc).data =
      w.data ++ '_' :: ((toString r).data ++ '_' :: ((toString c).data ++ '_' ::
        ((toString cr).data ++ '_' :: (toString cc).data))) := by
    simp only [String.data_append]
    simp
  rw [hdata, takeWhile_before_underscore _ _ h]

/-- Relation between a placement record and its ledgered coordinate list. -/
def ledgerEntryOk (s : GameState) (e : String × WordPlacement) : Prop :=
  ∃ pos, assocLookup s.wordPositions e.1 = some pos ∧
    pos.length = e.2.word.length ∧
    (∀ q ∈ pos, getChunkCoords s.chunkSize q.1 q.2 = e.2.chunkCoords) ∧
    splitUnderscoreHead e.1 = e.2.word ∧
    e.2.chunkCoords ∈ s.generatedChunks

/-- Invariant maintained by every reachable state of the engine. -/
structure StateInv (s : GameState) : Prop where
  aligned : s.chunks.map Prod.fst = s.generatedChunks
  gnodup : s.generatedChunks.Nodup
  goodChunks : ∀ e ∈ s.chunks, goodGrid s.chunkSize e.2
  pwKeys : s.placedWords.map Prod.fst = s.wordPositions.map Prod.fst
  pwNodup : (s.placedWords.map Prod.fst).Nodup
  ledger : ∀ e ∈ s.placedWords, ledgerEntryOk s e

lemma generateChunk_not_mem_eq {s : GameState} {cr cc : Int}
    (h : (cr, cc) ∉ s.generatedChunks) :
    generateChunk s cr cc =
      { s with
        chunks := assocSet s.chunks (cr, cc) (genChunkData s.chunkSize s.words cr cc).1
        generatedChunks := s.generatedChunks ++ [(cr, cc)]
        placedWords := (genChunkData s.chunkSize s.words cr cc).2.foldl
          (fun m e => assocSet m e.1 e.2.1) s.placedWords
        wordPositions := (genChunkData s.chunkSize s.words cr cc).2.foldl
          (fun m e => assocSet m e.1 e.2.2) s.wordPositions } := by
  rw [generateChunk, if_neg h]

lemma generateChunk_inv {s : GameState} (hS : 0 < s.chunkSize)
    (hw : goodWordList s.words) (hinv : StateInv s) (cr cc : Int) :
    StateInv (generateChunk s cr cc) := by
  by_cases hmem : (cr, cc) ∈ s.generatedChunks
  · rw [generateChunk, if_pos hmem]
    exact hinv
  · rw [generateChunk_not_mem_eq hmem]
    obtain ⟨hgood, hdelta⟩ := genChunkData_ok hS hw cr cc
    have hnotkey : (cr, cc) ∉ s.chunks.map Prod.fst := hinv.aligned ▸ hmem
    refine ⟨?_, ?_, ?_, ?_, ?_, ?_⟩
    · show (assocSet s.chunks (cr, cc) _).map Prod.fst = _
      rw [assocSet_keys, if_neg hnotkey, hinv.aligned]
    · exact nodup_append_singleton hinv.gnodup hmem
    · intro e he
      rcases mem_assocSet he with he' | he'
      · rw [he']
        exact hgood
      · exact hinv.goodChunks e he'
    · show ((genChunkData s.chunkSize s.words cr cc).2.foldl
          (fun m e => assocSet m e.1 e.2.1) s.placedWords).map Prod.fst = _
      rw [foldl_assocSet_keys (fun e : String × WordPlacement × List Pos => e.1) (fun e => e.2.1),
        foldl_assocSet_keys (fun e : String × WordPlacement × List Pos => e.1) (fun e => e.2.2), hinv.pwKeys]
    · show ((genChunkData s.chunkSize s.words cr cc).2.foldl
          (fun m e => assocSet m e.1 e.2.1) s.placedWords).map Prod.fst |>.Nodup
      rw [foldl_assocSet_keys (fun e : String × WordPlacement × List Pos => e.1) (fun e => e.2.1)]
      exact keysUnion_nodup _ _ hinv.pwNodup
    · intro e he
      have hsim := foldl_assocSet_sim (fun a => a.1) (fun a => a.2.1) (fun a => a.2.2)
        (fun k p pos => pos.length = p.word.length ∧
          (∀ q ∈ pos, getChunkCoords s.chunkSize q.1 q.2 = p.chunkCoords) ∧
          splitUnderscoreHead k = p.word ∧
          p.chunkCoords ∈ s.generatedChunks ++ [(cr, cc)])
        (genChunkData s.chunkSize s.words cr cc).2
        s.placedWords s.wordPositions hinv.pwKeys hinv.pwNodup
        ?_ ?_ e he
      · obtain ⟨pos, hlook, h1, h2, h3, h4⟩ := hsim
        exact ⟨pos, hlook, h1, h2, h3, h4⟩
      · intro e' he'
        obtain ⟨pos, hlook, h1, h2, h3, h4⟩ := hinv.ledger e' he'
        exact ⟨pos, hlook, h1, h2, h3, List.mem_append_left _ h4⟩
      · intro a ha
        obtain ⟨w0, hw0, hok⟩ := hdelta a ha
        obtain ⟨e1, e2, e3, e4, e5, e6⟩ := hok
        have hnound : ∀ ch ∈ (toUpperStr w0).data, ch ≠ '_' :=
          fun ch hch => goodChar_ne_underscore (hw w0 hw0 ch hch)
        dsimp only
        refine ⟨by rw [e5, e1], ?_, ?_, ?_⟩
        · intro q hq
          rw [e6 q hq, e2]
        · rw [e4, e1, splitUnderscoreHead_wordIdOf _ _ _ _ _ hnound]
        · rw [e2]
          simp

lemma generateChunk_fields (s : GameState) (cr cc : Int) :
    (generateChunk s cr cc).chunkSize = s.chunkSize ∧
    (generateChunk s cr cc).words = s.words ∧
    (generateChunk s cr cc).foundWords = s.foundWords := by
  rw [generateChunk]
  split <;> exact ⟨rfl, rfl, rfl⟩

lemma ensureChunkExists_inv {s : GameState} (hS : 0 < s.chunkSize)
    (hw : goodWordList s.words) (hinv : StateInv s) (cr cc : Int) :
    StateInv (ensureChunkExists s cr cc) := by
  rw [ensureChunkExists]
  split
  · exact hinv
  · exact generateChunk_inv hS hw hinv cr cc

lemma ensureChunkExists_fields (s : GameState) (cr cc : Int) :
    (ensureChunkExists s cr cc).chunkSize = s.chunkSize ∧
    (ensureChunkExists s cr cc).words = s.words ∧
    (ensureChunkExists s cr cc).foundWords = s.foundWords := by
  rw [ensureChunkExists]
  split
  · exact ⟨rfl, rfl, rfl⟩
  · exact generateChunk_fields s cr cc

lemma ensureChunkExists_lookup {s : GameState} (hinv : StateInv s) (cr cc : Int) :
    (assocLookup (ensureChunkExists s cr cc).chunks (cr, cc)).isSome := by
  rw [ensureChunkExists]
  split
  · assumption
  · rename_i hnone
    have hnot : (cr, cc) ∉ s.generatedChunks := by
      intro hmem
      exact hnone (assocLookup_isSome_of_mem_keys (hinv.aligned ▸ hmem))
    rw [generateChunk_not_mem_eq hnot]
    simp [assocLookup_set_self]

/-- `getCell` on an invariant-preserving state: the state keeps the
invariant, the constructed chunk is found, and the returned cell is a single
uppercase letter — the `null` fallback path is never taken. -/
lemma getCell_spec {s : GameState} (hS : 0 < s.chunkSize)
    (hw : goodWordList s.words) (hinv : StateInv s) (row col : Int) :
    StateInv (getCell s row col).2 ∧
    (getCell s row col).2.chunkSize = s.chunkSize ∧
    (getCell s row col).2.words = s.words ∧
    (getCell s row col).2.foundWords = s.foundWords ∧
    ∃ cell, (getCell s row col).1 = some cell ∧ goodCellStr cell := by
  have hinv1 := ensureChunkExists_inv hS hw hinv
    (getChunkCoords s.chunkSize row col).1 (getChunkCoords s.chunkSize row col).2
  have hf := ensureChunkExists_fields s
    (getChunkCoords s.chunkSize row col).1 (getChunkCoords s.chunkSize row col).2
  have hlook := ensureChunkExists_lookup hinv
    (getChunkCoords s.chunkSize row col).1 (getChunkCoords s.chunkSize row col).2
  rw [getCell]
  rcases hsome : assocLookup (ensureChunkExists s
      (getChunkCoords s.chunkSize row col).1
      (getChunkCoords s.chunkSize row col).2).chunks
      (getChunkCoords s.chunkSize row col) with _ | chunk
  · rw [hsome] at hlook
    simp at hlook
  · have hchunkmem := assocLookup_mem hsome
    have hgood := hinv1.goodChunks _ hchunkmem
    rw [hf.1] at hgood
    dsimp only
    refine ⟨hinv1, hf.1, hf.2.1, hf.2.2, ?_⟩
    have hr : (getLocalCoords s.chunkSize row col).1.toNat < chunk.length := by
      rw [hgood.1.1]
      exact local_toNat_lt hS row
    rw [List.getD_eq_getElem _ _ hr]
    have hrowmem := List.getElem_mem hr
    have hc : (getLocalCoords s.chunkSize row col).2.toNat <
        (chunk[(getLocalCoords s.chunkSize row col).1.toNat]).length := by
      rw [hgood.1.2 _ hrowmem]
      exact local_toNat_lt hS col
    rw [List.getD_eq_getElem _ _ hc]
    exact ⟨_, rfl, hgood.2 _ hrowmem _ (List.getElem_mem hc)⟩

/-- A state with the invariant, a fixed chunk size and a fixed word list
(all states reachable from the constructor have this shape). -/
def Reach (S : Nat) (words : List String) (s : GameState) : Prop :=
  StateInv s ∧ s.chunkSize = S ∧ s.words = words

lemma getCell_reach {S : Nat} {words : List String} {s : GameState}
    (hS : 0 < S) (hw : goodWordList words) (h : Reach S words s)
    (row col : Int) :
    Reach S words (getCell s row col).2 ∧
    ∃ cell, (getCell s row col).1 = some cell ∧ goodCellStr cell := by
  obtain ⟨hinv, hsz, hwd⟩ := h
  obtain ⟨h1, h2, h3, h4, h5⟩ := getCell_spec (hsz ▸ hS) (hwd ▸ hw) hinv row col
  exact ⟨⟨h1, h2.trans hsz, h3.trans hwd⟩, h5⟩

lemma getRegionRow_fold {S : Nat} {words : List String} (hS : 0 < S)
    (hw : goodWordList words) (row c1 : Int) :
    ∀ (l : List Nat) (cells : List String) (s : GameState), Reach S words s →
      (∀ c ∈ cells, goodCellStr c) →
      Reach S words (l.foldl
        (fun (acc : List String × GameState) (j : Nat) =>
          (acc.1 ++ [match (getCell acc.2 row (c1 + (j : Int))).1 with
                     | some x => if x = "" then " " else x
                     | none => " "], (getCell acc.2 row (c1 + (j : Int))).2))
        (cells, s)).2 ∧
      ((l.foldl
        (fun (acc : List String × GameState) (j : Nat) =>
          (acc.1 ++ [match (getCell acc.2 row (c1 + (j : Int))).1 with
                     | some x => if x = "" then " " else x
                     | none => " "], (getCell acc.2 row (c1 + (j : Int))).2))
        (cells, s)).1).length = cells.length + l.length ∧
      ∀ c ∈ (l.foldl
        (fun (acc : List String × GameState) (j : Nat) =>
          (acc.1 ++ [match (getCell acc.2 row (c1 + (j : Int))).1 with
                     | some x => if x = "" then " " else x
                     | none => " "], (getCell acc.2 row (c1 + (j : Int))).2))
        (cells, s)).1, goodCellStr c := by
  intro l
  induction l with
  | nil =>
    intro cells s hr hc
    exact ⟨hr, by simp, hc⟩
  | cons j rest ih =>
    intro cells s hr hc
    obtain ⟨hr', cell, hcell, hgood⟩ := getCell_reach hS hw hr row (c1 + (j : Int))
    have hne : cell ≠ "" := by
      intro h0
      rw [h0] at hgood
      simp [goodCellStr] at hgood
    simp only [List.foldl_cons, hcell]
    have hcells' : ∀ c ∈ cells ++ [if cell = "" then " " else cell],
        goodCellStr c := by
      intro c hcmem
      rcases List.mem_append.mp hcmem with h | h
      · exact hc c h
      · rw [if_neg hne] at h
        simp at h
        exact h ▸ hgood
    obtain ⟨ha, hb, hd⟩ := ih _ _ hr' hcells'
    refine ⟨ha, ?_, hd⟩
    rw [hb]
    simp
    omega

lemma getRegionRow_spec {S : Nat} {words : List String} {s : GameState}
    (hS : 0 < S) (hw : goodWordList words) (h : Reach S words s)
    (row c1 c2 : Int) :
    Reach S words (getRegionRow row c1 c2 s).2 ∧
    (getRegionRow row c1 c2 s).1.length = (c2 + 1 - c1).toNat ∧
    ∀ c ∈ (getRegionRow row c1 c2 s).1, goodCellStr c := by
  obtain ⟨ha, hb, hc⟩ := getRegionRow_fold hS hw row c1
    (List.range (c2 + 1 - c1).toNat) [] s h (by simp)
  rw [getRegionRow]
  refine ⟨ha, ?_, hc⟩
  rw [hb]
  simp

lemma getRegion_fold {S : Nat} {words : List String} (hS : 0 < S)
    (hw : goodWordList words) (r1 c1 c2 : Int) :
    ∀ (l : List Nat) (rows : Grid) (s : GameState), Reach S words s →
      Reach S words (l.foldl
        (fun (acc : Grid × GameState) (i : Nat) =>
          (acc.1 ++ [(getRegionRow (r1 + (i : Int)) c1 c2 acc.2).1],
           (getRegionRow (r1 + (i : Int)) c1 c2 acc.2).2))
        (rows, s)).2 ∧
      ((l.foldl
        (fun (acc : Grid × GameState) (i : Nat) =>
          (acc.1 ++ [(getRegionRow (r1 + (i : Int)) c1 c2 acc.2).1],
           (getRegionRow (r1 + (i : Int)) c1 c2 acc.2).2))
        (rows, s)).1).length = rows.length + l.length ∧
      ∀ r ∈ (l.foldl
        (fun (acc : Grid × GameState) (i : Nat) =>
          (acc.1 ++ [(getRegionRow (r1 + (i : Int)) c1 c2 acc.2).1],
           (getRegionRow (r1 + (i : Int)) c1 c2 acc.2).2))
        (rows, s)).1,
        r ∈ rows ∨ (r.length = (c2 + 1 - c1).toNat ∧ ∀ c ∈ r, goodCellStr c) := by
  intro l
  induction l with
  | nil =>
    intro rows s hr
    exact ⟨hr, by simp, fun r hrm => Or.inl hrm⟩
  | cons i rest ih =>
    intro rows s hr
    obtain ⟨hr', hlen, hcells⟩ := getRegionRow_spec hS hw hr (r1 + (i : Int)) c1 c2
    simp only [List.foldl_cons]
    obtain ⟨ha, hb, hd⟩ := ih _ _ hr'
    refine ⟨ha, ?_, ?_⟩
    · rw [hb]
      simp
      omega
    · intro r hrm
      rcases hd r hrm with hmem | hgood
      · rcases List.mem_append.mp hmem with h | h
        · exact Or.inl h
        · simp at h
          exact Or.inr (h ▸ ⟨hlen, hcells⟩)
      · exact Or.inr hgood

lemma getRegion_spec {S : Nat} {words : List String} {s : GameState}
    (hS : 0 < S) (hw : goodWordList words) (h : Reach S words s)
    (r1 c1 r2 c2 : Int) :
    Reach S words (getRegion s r1 c1 r2 c2).2 ∧
    (getRegion s r1 c1 r2 c2).1.length = (r2 + 1 - r1).toNat ∧
    ∀ r ∈ (getRegion s r1 c1 r2 c2).1,
      r.length = (c2 + 1 - c1).toNat ∧ ∀ c ∈ r, goodCellStr c := by
  obtain ⟨ha, hb, hd⟩ := getRegion_fold hS hw r1 c1 c2
    (List.range (r2 + 1 - r1).toNat) [] s h
  rw [getRegion]
  refine ⟨ha, by rw [hb]; simp, ?_⟩
  intro r hrm
  rcases hd r hrm with h' | h'
  · simp at h'
  · exact h'

/-- Case analysis of the `validateSelection` loop: either it returns `null`
with the state untouched, or it claims the first entry that passes
`matchEntry`, flips exactly that placement's found flag and records the
found word with the placement's stored coordinate order. -/
lemma validateScan_cases (s : GameState) (coords : List Pos) :
    ∀ l : List (String × List Pos),
      ((validateScan s coords l).1 = none ∧ (validateScan s coords l).2 = s) ∨
      ∃ wid positions p, (wid, positions) ∈ l ∧
        matchEntry coords positions = true ∧
        assocLookup s.placedWords wid = some p ∧ p.founded = false ∧
        (validateScan s coords l).1 = some (splitUnderscoreHead wid) ∧
        (validateScan s coords l).2 =
          { s with
            placedWords := assocSet s.placedWords wid { p with founded := true }
            foundWords := assocSet s.foundWords wid (p.word, positions) } := by
  intro l
  induction l with
  | nil => exact Or.inl ⟨rfl, rfl⟩
  | cons e rest ih =>
    obtain ⟨wid, positions⟩ := e
    by_cases hm : matchEntry coords positions = true
    · rcases hp : assocLookup s.placedWords wid with _ | p
      · simp only [validateScan, if_pos hm, hp]
        exact Or.inl (by simp)
      · by_cases hf : p.founded
        · simp only [validateScan, if_pos hm, hp, if_pos hf]
          exact Or.inl (by simp)
        · simp only [validateScan, if_pos hm, hp, if_neg hf]
          exact Or.inr ⟨wid, positions, p, List.mem_cons_self _ _, hm, hp,
            Bool.eq_false_iff.mpr hf, rfl, rfl⟩
    · simp only [validateScan, if_neg hm]
      rcases ih with h | ⟨wid', positions', p', hmem, h1, h2, h3, h4, h5⟩
      · exact Or.inl h
      · exact Or.inr ⟨wid', positions', p', List.mem_cons_of_mem _ hmem,
          h1, h2, h3, h4, h5⟩

lemma validateSelection_cases (s : GameState) (coords : List Pos) :
    ((validateSelection s coords).1 = none ∧ (validateSelection s coords).2 = s) ∨
    ∃ wid positions p, (wid, positions) ∈ s.wordPositions ∧
      matchEntry coords positions = true ∧
      assocLookup s.placedWords wid = some p ∧ p.founded = false ∧
      (validateSelection s coords).1 = some (splitUnderscoreHead wid) ∧
      (validateSelection s coords).2 =
        { s with
          placedWords := assocSet s.placedWords wid { p with founded := true }
          foundWords := assocSet s.foundWords wid (p.word, positions) } := by
  rw [validateSelection]
  split
  · exact Or.inl ⟨rfl, rfl⟩
  · exact validateScan_cases s coords s.wordPositions

lemma validateSelection_inv {s : GameState} (hinv : StateInv s)
    (coords : List Pos) : StateInv (validateSelection s coords).2 := by
  rcases validateSelection_cases s coords with ⟨_, h2⟩ |
    ⟨wid, positions, p, hmem, hm, hp, hf, h4, h5⟩
  · rw [h2]
    exact hinv
  · rw [h5]
    have hkmem : wid ∈ s.placedWords.map Prod.fst :=
      List.mem_map_of_mem Prod.fst (assocLookup_mem hp)
    have hkeys : (assocSet s.placedWords wid { p with founded := true }).map
        Prod.fst = s.placedWords.map Prod.fst := by
      rw [assocSet_keys, if_pos hkmem]
    refine ⟨hinv.aligned, hinv.gnodup, hinv.goodChunks, ?_, ?_, ?_⟩
    · show (assocSet s.placedWords wid _).map Prod.fst = _
      rw [hkeys]
      exact hinv.pwKeys
    · show ((assocSet s.placedWords wid _).map Prod.fst).Nodup
      rw [hkeys]
      exact hinv.pwNodup
    · intro e he
      rcases mem_assocSet he with he' | he'
      · subst he'
        obtain ⟨pos, hl1, hl2, hl3, hl4, hl5⟩ :=
          hinv.ledger (wid, p) (assocLookup_mem hp)
        exact ⟨pos, hl1, hl2, hl3, hl4, hl5⟩
      · exact hinv.ledger e he'

lemma validateSelection_fields (s : GameState) (coords : List Pos) :
    (validateSelection s coords).2.chunkSize = s.chunkSize ∧
    (validateSelection s coords).2.words = s.words ∧
    (validateSelection s coords).2.chunks = s.chunks ∧
    (validateSelection s coords).2.wordPositions = s.wordPositions := by
  rcases validateSelection_cases s coords with ⟨_, h2⟩ |
    ⟨_, _, _, _, _, _, _, _, h5⟩
  · rw [h2]
    exact ⟨rfl, rfl, rfl, rfl⟩
  · rw [h5]
    exact ⟨rfl, rfl, rfl, rfl⟩

lemma applyOp_reach {S : Nat} {words : List String} {s : GameState}
    (hS : 0 < S) (hw : goodWordList words) (h : Reach S words s) (op : Op) :
    Reach S words (applyOp s op) := by
  obtain ⟨hinv, hsz, hwd⟩ := h
  cases op with
  | genChunk cr cc =>
    exact ⟨ensureChunkExists_inv (hsz ▸ hS) (hwd ▸ hw) hinv cr cc,
      (ensureChunkExists_fields s cr cc).1.trans hsz,
      (ensureChunkExists_fields s cr cc).2.1.trans hwd⟩
  | cell row col => exact (getCell_reach hS hw ⟨hinv, hsz, hwd⟩ row col).1
  | region r1 c1 r2 c2 =>
    exact (getRegion_spec hS hw ⟨hinv, hsz, hwd⟩ r1 c1 r2 c2).1
  | validate coords =>
    exact ⟨validateSelection_inv hinv coords,
      (validateSelection_fields s coords).1.trans hsz,
      (validateSelection_fields s coords).2.1.trans hwd⟩

lemma runOps_reach {S : Nat} {words : List String} {s : GameState}
    (hS : 0 < S) (hw : goodWordList words) (h : Reach S words s) :
    ∀ ops : List Op, Reach S words (runOps s ops) := by
  intro ops
  induction ops generalizing s with
  | nil => exact h
  | cons op rest ih => exact ih (applyOp_reach hS hw h op)

lemma mkGameState_reach (S : Nat) (words : List String) (hS : 0 < S)
    (hw : goodWordList words) : Reach S words (mkGameState S words) := by
  have hinv0 : StateInv ⟨S, words, [], [], [], [], []⟩ :=
    ⟨rfl, List.nodup_nil, by simp, rfl, List.nodup_nil, by simp⟩
  exact ⟨generateChunk_inv hS hw hinv0 0 0,
    (generateChunk_fields _ 0 0).1, (generateChunk_fields _ 0 0).2.1⟩

/-- C6: in every state the engine can reach (any operation sequence from the
constructor), every generated chunk is a full S×S grid whose cells each hold
exactly one uppercase A-Z letter — no empty cells persist past chunk
creation. -/
theorem chunks_all_letters (S : Nat) (words : List String) (ops : List Op)
    (hS : 0 < S) (hw : goodWordList words) :
    ∀ key grid,
      assocLookup (runOps (mkGameState S words) ops).chunks key = some grid →
      grid.length = S ∧ ∀ row ∈ grid, row.length = S ∧
        ∀ cell ∈ row, cell.data.length = 1 ∧
          ∀ ch ∈ cell.data, 'A' ≤ ch ∧ ch ≤ 'Z' := by
  intro key grid hlook
  obtain ⟨hinv, hsz, _⟩ := runOps_reach hS hw (mkGameState_reach S words hS hw) ops
  have hgood := hinv.goodChunks _ (assocLookup_mem hlook)
  rw [hsz] at hgood
  exact ⟨hgood.1.1, fun row hr => ⟨hgood.1.2 row hr,
    fun cell hc => hgood.2 row hr cell hc⟩⟩

/-- Witness for C6: the chunk (0,0) of a store with chunk size 2 and word
list `["AB"]`. -/
theorem chunks_all_letters_witness :
    ([["B", "A"], ["B", "A"]] : Grid).length = 2 ∧
    ∀ row ∈ ([["B", "A"], ["B", "A"]] : Grid), row.length = 2 ∧
      ∀ cell ∈ row, cell.data.length = 1 ∧
        ∀ ch ∈ cell.data, 'A' ≤ ch ∧ ch ≤ 'Z' :=
  chunks_all_letters 2 ["AB"] [] (by decide) (by decide) (0, 0)
    [["B", "A"], ["B", "A"]] (by decide)

/-- C7: in every reachable state, each ledgered placement's coordinate list
is as long as its word and lies entirely within the placement's owning
chunk; and a candidate placement whose first and last cell fall in different
chunks is rejected outright by `canPlaceWord`. -/
theorem placements_wellformed (S : Nat) (words : List String) (ops : List Op)
    (hS : 0 < S) (hw : goodWordList words) :
    (∀ wid p,
      assocLookup (runOps (mkGameState S words) ops).placedWords wid = some p →
      ∃ pos,
        assocLookup (runOps (mkGameState S words) ops).wordPositions wid
          = some pos ∧
        pos.length = p.word.length ∧
        ∀ q ∈ pos, getChunkCoords S q.1 q.2 = p.chunkCoords) ∧
    ∀ (grid : Grid) (word : String) (row col : Int) (d : Direction),
      getChunkCoords S row col ≠
        getChunkCoords S
          (row + ((word.length : Int) - 1) * (DirectionVectors d).1)
          (col + ((word.length : Int) - 1) * (DirectionVectors d).2) →
      canPlaceWord S grid word row col d = false := by
  constructor
  · intro wid p hlook
    obtain ⟨hinv, hsz, _⟩ :=
      runOps_reach hS hw (mkGameState_reach S words hS hw) ops
    obtain ⟨pos, h1, h2, h3, _, _⟩ := hinv.ledger _ (assocLookup_mem hlook)
    rw [hsz] at h3
    exact ⟨pos, h1, h2, h3⟩
  · intro grid word row col d hne
    simp only [canPlaceWord]
    rw [if_pos hne]

/-- Witness for C7: the placement `AB_1_1_0_0` of a store with chunk size 2
and word list `["AB"]`, and a horizontal candidate crossing out of chunk
(0,0). -/
theorem placements_wellformed_witness :
    (∃ pos,
      assocLookup (runOps (mkGameState 2 ["AB"]) []).wordPositions "AB_1_1_0_0"
        = some pos ∧
      pos.length = ("AB" : String).length ∧
      ∀ q ∈ pos, getChunkCoords 2 q.1 q.2 = (0, 0)) ∧
    canPlaceWord 2 [["B", "A"], ["B", "A"]] "AB" 0 1 Direction.HORIZONTAL
      = false :=
  ⟨(placements_wellformed 2 ["AB"] [] (by decide) (by decide)).1 "AB_1_1_0_0"
      ⟨"AB", 1, 1, .HORIZONTAL_REV, (0, 0), "AB_1_1_0_0", false⟩ (by decide),
   (placements_wellformed 2 ["AB"] [] (by decide) (by decide)).2
      [["B", "A"], ["B", "A"]] "AB" 0 1 .HORIZONTAL (by decide)⟩

/-- C8: on any reachable state, `getRegion` over an inclusive rectangle with
ordered bounds never fails: it returns exactly (endRow−startRow+1) rows of
(endCol−startCol+1) single uppercase letters each — the blank/space
defensive fallback is never taken, on arbitrarily large or negative
coordinates. -/
theorem getRegion_total (S : Nat) (words : List String) (s : GameState)
    (r1 c1 r2 c2 : Int) (hS : 0 < S) (hw : goodWordList words)
    (hreach : Reach S words s) (h1 : r1 ≤ r2) (h2 : c1 ≤ c2) :
    (getRegion s r1 c1 r2 c2).1.length = (r2 - r1 + 1).toNat ∧
    ∀ row ∈ (getRegion s r1 c1 r2 c2).1,
      row.length = (c2 - c1 + 1).toNat ∧
      ∀ cell ∈ row, cell.data.length = 1 ∧
        ∀ ch ∈ cell.data, 'A' ≤ ch ∧ ch ≤ 'Z' := by
  obtain ⟨_, hlen, hrows⟩ := getRegion_spec hS hw hreach r1 c1 r2 c2
  constructor
  · rw [hlen]
    congr 1
    omega
  · intro row hr
    obtain ⟨ha, hb⟩ := hrows row hr
    refine ⟨by rw [ha]; congr 1; omega, ?_⟩
    intro cell hc
    exact hb cell hc

/-- Witness for C8: the region (-1,-1)..(1,1) (spanning four chunks, three
generated on demand) of a store with chunk size 2 and word list `["AB"]`. -/
theorem getRegion_total_witness :
    (getRegion (mkGameState 2 ["AB"]) (-1) (-1) 1 1).1.length
        = ((1 : Int) - (-1) + 1).toNat ∧
    ∀ row ∈ (getRegion (mkGameState 2 ["AB"]) (-1) (-1) 1 1).1,
      row.length = ((1 : Int) - (-1) + 1).toNat ∧
      ∀ cell ∈ row, cell.data.length = 1 ∧
        ∀ ch ∈ cell.data, 'A' ≤ ch ∧ ch ≤ 'Z' :=
  getRegion_total 2 ["AB"] (mkGameState 2 ["AB"]) (-1) (-1) 1 1
    (by decide) (by decide)
    (mkGameState_reach 2 ["AB"] (by decide) (by decide))
    (by decide) (by decide)


/-- `matchEntry` unpacked: equal lengths, equal position sets, and the input
equal to the stored order or its exact reverse. -/
lemma matchEntry_spec {coords positions : List Pos}
    (h : matchEntry coords positions = true) :
    positions.length = coords.length ∧ setsEqual coords positions = true ∧
    (coords = positions ∨ coords = positions.reverse) := by
  unfold matchEntry at h
  simp only [Bool.and_eq_true, Bool.or_eq_true, beq_iff_eq] at h
  exact ⟨h.1.1, h.1.2, h.2⟩

lemma validateScan_rescan (s : GameState) (coords : List Pos) :
    ∀ (l : List (String × List Pos)) (w : String) (s' : GameState),
      validateScan s coords l = (some w, s') →
      validateScan s' coords l = (none, s') := by
  intro l
  induction l with
  | nil =>
    intro w s' h
    simp [validateScan] at h
  | cons e rest ih =>
    obtain ⟨wid, positions⟩ := e
    intro w s' h
    by_cases hm : matchEntry coords positions = true
    · rcases hp : assocLookup s.placedWords wid with _ | p
      · simp only [validateScan, if_pos hm, hp] at h
        simp at h
      · by_cases hf : p.founded
        · simp only [validateScan, if_pos hm, hp, if_pos hf] at h
          simp at h
        · simp only [validateScan, if_pos hm, hp, if_neg hf] at h
          rw [Prod.mk.injEq] at h
          obtain ⟨h1, h2⟩ := h
          subst h2
          simp only [validateScan, if_pos hm, assocLookup_set_self]
          simp
    · simp only [validateScan, if_neg hm] at h ⊢
      exact ih w s' h

/-- C5: a claimed word cannot be claimed twice — re-validating the exact
coordinates that just succeeded returns no match — and every call that
returns no match leaves the state (every placement's found flag and the
found-words collection included) completely unchanged. -/
theorem validateSelection_once (s : GameState) (coords : List Pos) :
    (∀ w s', validateSelection s coords = (some w, s') →
      validateSelection s' coords = (none, s')) ∧
    (∀ s', validateSelection s coords = (none, s') → s' = s) := by
  constructor
  · intro w s' h
    rw [validateSelection] at h ⊢
    split at h
    · simp at h
    · rename_i hne
      have hpos : s'.wordPositions = s.wordPositions := by
        rcases validateScan_cases s coords s.wordPositions with ⟨hl, _⟩ |
          ⟨_, _, _, _, _, _, _, _, h5⟩
        · rw [h] at hl
          simp at hl
        · rw [h] at h5
          dsimp only at h5
          rw [h5]
      rw [if_neg hne, hpos]
      exact validateScan_rescan s coords s.wordPositions w s' h
  · intro s' h
    rcases validateSelection_cases s coords with ⟨_, h2⟩ |
      ⟨_, _, _, _, _, _, _, h4, _⟩
    · rw [h] at h2
      dsimp only at h2
      exact h2
    · rw [h] at h4
      simp at h4

/-- Witness for C5: claiming `AB` at its stored coordinates in a store with
chunk size 2 and word list `["AB"]`, then re-validating the same
coordinates; and a non-matching selection leaving the state unchanged. -/
theorem validateSelection_once_witness :
    validateSelection
        ((validateSelection (mkGameState 2 ["AB"]) [(1, 1), (1, 0)]).2)
        [(1, 1), (1, 0)]
      = (none, (validateSelection (mkGameState 2 ["AB"]) [(1, 1), (1, 0)]).2) ∧
    (validateSelection (mkGameState 2 ["AB"]) [(5, 5)]).2 = mkGameState 2 ["AB"] :=
  ⟨(validateSelection_once (mkGameState 2 ["AB"]) [(1, 1), (1, 0)]).1 "AB" _
      (by decide),
   (validateSelection_once (mkGameState 2 ["AB"]) [(5, 5)]).2 _ (by decide)⟩

/-- C10: when a selection is accepted — also when it was submitted in the
reverse of the stored order — the record added to the found-words collection
(and served by `getFoundWords`) carries the placement's stored anchor-to-tail
coordinate list, while the per-request `wordFound` broadcast and the
validation response echo the submitted coordinates. -/
theorem foundWord_stored_order (s : GameState) (coords : List Pos)
    (w : String) (s' : GameState)
    (h : validateSelection s coords = (some w, s')) :
    ∃ wid positions p,
      (wid, positions) ∈ s.wordPositions ∧
      assocLookup s.placedWords wid = some p ∧
      (coords = positions ∨ coords = positions.reverse) ∧
      s'.foundWords = assocSet s.foundWords wid (p.word, positions) ∧
      getFoundWords s' = s'.foundWords.map (fun e => e.2) ∧
      (handleValidateRequest s coords).2.2 = some ⟨w, coords⟩ ∧
      (handleValidateRequest s coords).2.1 = ⟨some w, coords⟩ := by
  rcases validateSelection_cases s coords with ⟨hl, _⟩ |
    ⟨wid, positions, p, hmem, hm, hp, _, h4, h5⟩
  · rw [h] at hl
    simp at hl
  · refine ⟨wid, positions, p, hmem, hp, (matchEntry_spec hm).2.2, ?_, rfl, ?_, ?_⟩
    · rw [h] at h5
      dsimp only at h5
      rw [h5]
    · show (validateSelection s coords).1.map (fun w' => WordFoundMsg.mk w' coords)
        = some ⟨w, coords⟩
      rw [h]
      rfl
    · show ValidateResponse.mk (validateSelection s coords).1 coords = _
      rw [h]

/-- Witness for C10: submitting the placement `AB_1_1_0_0`'s coordinates in
reverse order; the found-word record keeps the stored order `[(1,1),(1,0)]`
while the broadcast echoes the submitted `[(1,0),(1,1)]`. -/
theorem foundWord_stored_order_witness :
    ∃ wid positions p,
      (wid, positions) ∈ (mkGameState 2 ["AB"]).wordPositions ∧
      assocLookup (mkGameState 2 ["AB"]).placedWords wid = some p ∧
      (([(1, 0), (1, 1)] : List Pos) = positions ∨
        ([(1, 0), (1, 1)] : List Pos) = positions.reverse) ∧
      ((validateSelection (mkGameState 2 ["AB"]) [(1, 0), (1, 1)]).2).foundWords
        = assocSet (mkGameState 2 ["AB"]).foundWords wid (p.word, positions) ∧
      getFoundWords ((validateSelection (mkGameState 2 ["AB"]) [(1, 0), (1, 1)]).2)
        = ((validateSelection (mkGameState 2 ["AB"]) [(1, 0), (1, 1)]).2).foundWords.map
            (fun e => e.2) ∧
      (handleValidateRequest (mkGameState 2 ["AB"]) [(1, 0), (1, 1)]).2.2
        = some ⟨"AB", [(1, 0), (1, 1)]⟩ ∧
      (handleValidateRequest (mkGameState 2 ["AB"]) [(1, 0), (1, 1)]).2.1
        = ⟨some "AB", [(1, 0), (1, 1)]⟩ :=
  foundWord_stored_order (mkGameState 2 ["AB"]) [(1, 0), (1, 1)] "AB" _
    (by decide)

lemma getLocalCoords_anchor {S : Nat} (cr cc : Int) {lr lc : Nat}
    (hlr : lr < S) (hlc : lc < S) :
    getLocalCoords S (cr * S + (lr : Int)) (cc * S + (lc : Int)) =
      ((lr : Int), (lc : Int)) :=
  Prod.ext (localOf_mul_add cr lr S hlr) (localOf_mul_add cc lc S hlc)

lemma goodCellStr_ne_empty {cell : String} (h : goodCellStr cell) :
    cell ≠ "" := by
  intro h0
  rw [h0] at h
  simp [goodCellStr] at h

/-- A `getCell` read inside an already generated chunk neither changes the
state nor misses: it returns the stored grid's local cell. -/
lemma getCell_in_chunk {S : Nat} {s : GameState} (hs : s.chunkSize = S)
    {cr cc : Int} {G : Grid} (hlook : assocLookup s.chunks (cr, cc) = some G)
    {i j : Nat} (hi : i < S) (hj : j < S) :
    getCell s (cr * S + (i : Int)) (cc * S + (j : Int)) =
      (some ((G.getD i []).getD j ""), s) := by
  have hS : 0 < S := Nat.lt_of_le_of_lt (Nat.zero_le _) hi
  have hcoords : getChunkCoords s.chunkSize (cr * S + (i : Int))
      (cc * S + (j : Int)) = (cr, cc) := by
    rw [hs]
    exact getChunkCoords_anchor hS cr cc hi hj
  have hlocal : getLocalCoords s.chunkSize (cr * S + (i : Int))
      (cc * S + (j : Int)) = ((i : Int), (j : Int)) := by
    rw [hs]
    exact getLocalCoords_anchor cr cc hi hj
  simp only [getCell, hcoords, hlocal]
  have hens : ensureChunkExists s cr cc = s := by
    rw [ensureChunkExists, hlook]
    simp
  rw [hens, hlook]
  simp

lemma range_map_getD {α : Type} (d : α) (l : List α) {n : Nat}
    (hlen : n = l.length) :
    (List.range n).map (fun j => l.getD j d) = l := by
  apply List.ext_getElem
  · simp [hlen]
  · intro k h1 h2
    simp only [List.getElem_map, List.getElem_range]
    exact List.getD_eq_getElem _ _ h2

lemma region_row_fold_const (row c1 : Int) (s : GameState)
    (cellf : Nat → String) :
    ∀ (l : List Nat) (cells : List String),
      (∀ j ∈ l, getCell s row (c1 + (j : Int)) = (some (cellf j), s) ∧
        cellf j ≠ "") →
      l.foldl (fun (acc : List String × GameState) (j : Nat) =>
          (acc.1 ++ [match (getCell acc.2 row (c1 + (j : Int))).1 with
                     | some x => if x = "" then " " else x
                     | none => " "],
           (getCell acc.2 row (c1 + (j : Int))).2)) (cells, s) =
        (cells ++ l.map cellf, s) := by
  intro l
  induction l with
  | nil =>
    intro cells _
    simp
  | cons j rest ih =>
    intro cells hcell
    obtain ⟨hc, hne⟩ := hcell j (List.mem_cons_self _ _)
    simp only [List.foldl_cons, hc, if_neg hne]
    rw [ih (cells ++ [cellf j])
      (fun j' hj' => hcell j' (List.mem_cons_of_mem _ hj'))]
    simp

lemma region_rows_fold_const (r1 c1 c2 : Int) (s : GameState)
    (rowf : Nat → List String) :
    ∀ (l : List Nat) (rows : Grid),
      (∀ i ∈ l, getRegionRow (r1 + (i : Int)) c1 c2 s = (rowf i, s)) →
      l.foldl (fun (acc : Grid × GameState) (i : Nat) =>
          (acc.1 ++ [(getRegionRow (r1 + (i : Int)) c1 c2 acc.2).1],
           (getRegionRow (r1 + (i : Int)) c1 c2 acc.2).2)) (rows, s) =
        (rows ++ l.map rowf, s) := by
  intro l
  induction l with
  | nil =>
    intro rows _
    simp
  | cons i rest ih =>
    intro rows hrow
    have hi := hrow i (List.mem_cons_self _ _)
    simp only [List.foldl_cons, hi]
    rw [ih (rows ++ [rowf i])
      (fun i' hi' => hrow i' (List.mem_cons_of_mem _ hi'))]
    simp

/-- C9 (amended): for the server's game constructed with chunk size 10 — the
only size `handleChunkRequest` supports, since it hardcodes 10 — every
get-chunk request is answered with the echoed chunk coordinates, chunk size
10, and exactly the 10×10 letters of the stored chunk. -/
theorem handleChunkRequest_size10 (words : List String) (s : GameState)
    (hw : goodWordList words) (hreach : Reach 10 words s) (cr cc : Int) :
    (handleChunkRequest s cr cc).2.chunkRow = cr ∧
    (handleChunkRequest s cr cc).2.chunkCol = cc ∧
    (handleChunkRequest s cr cc).2.chunkSize = 10 ∧
    ∃ grid,
      assocLookup (handleChunkRequest s cr cc).1.chunks (cr, cc) = some grid ∧
      (handleChunkRequest s cr cc).2.data = grid ∧
      grid.length = 10 ∧ ∀ row ∈ grid, row.length = 10 := by
  have hexp : expandToPosition s (cr * 10) (cc * 10) =
      ensureChunkExists s cr cc := by
    rw [expandToPosition]
    have h1 : getChunkCoords s.chunkSize (cr * 10) (cc * 10) = (cr, cc) := by
      rw [hreach.2.1]
      have h0 := getChunkCoords_anchor (by decide : 0 < 10) cr cc
        (by decide : (0 : Nat) < 10) (by decide : (0 : Nat) < 10)
      simpa using h0
    rw [h1]
  have hreach1 : Reach 10 words (ensureChunkExists s cr cc) :=
    applyOp_reach (by decide) hw hreach (.genChunk cr cc)
  have hlookSome := ensureChunkExists_lookup hreach.1 cr cc
  obtain ⟨G, hG⟩ := Option.isSome_iff_exists.mp hlookSome
  have hGood : goodGrid 10 G := by
    have h := hreach1.1.goodChunks _ (assocLookup_mem hG)
    rw [hreach1.2.1] at h
    exact h
  have hGlen : G.length = 10 := hGood.1.1
  have hcell : ∀ i : Nat, i < 10 → ∀ j ∈ List.range 10,
      getCell (ensureChunkExists s cr cc) (cr * 10 + (i : Int))
          (cc * 10 + (j : Int)) =
        (some ((G.getD i []).getD j ""), ensureChunkExists s cr cc) ∧
      (G.getD i []).getD j "" ≠ "" := by
    intro i hi j hj
    have hj10 : j < 10 := List.mem_range.mp hj
    refine ⟨getCell_in_chunk hreach1.2.1 hG hi hj10, ?_⟩
    have hrmem : i < G.length := by
      rw [hGlen]
      exact hi
    rw [List.getD_eq_getElem _ _ hrmem]
    have hcmem : j < (G[i]).length := by
      rw [hGood.1.2 _ (List.getElem_mem hrmem)]
      exact hj10
    rw [List.getD_eq_getElem _ _ hcmem]
    exact goodCellStr_ne_empty
      (hGood.2 _ (List.getElem_mem hrmem) _ (List.getElem_mem hcmem))
  have hrow : ∀ i ∈ List.range 10,
      getRegionRow (cr * 10 + (i : Int)) (cc * 10) (cc * 10 + 9)
          (ensureChunkExists s cr cc) =
        (G.getD i [], ensureChunkExists s cr cc) := by
    intro i hi
    have hi10 : i < 10 := List.mem_range.mp hi
    have hrmem : i < G.length := by
      rw [hGlen]
      exact hi10
    rw [getRegionRow]
    have hcnt : (cc * 10 + 9 + 1 - (cc * 10)).toNat = 10 := by omega
    rw [hcnt, region_row_fold_const (cr * 10 + (i : Int)) (cc * 10)
      (ensureChunkExists s cr cc) (fun j => (G.getD i []).getD j "")
      (List.range 10) [] (hcell i hi10)]
    rw [range_map_getD _ _ (show (10 : Nat) = (G.getD i []).length by
      rw [List.getD_eq_getElem _ _ hrmem, hGood.1.2 _ (List.getElem_mem hrmem)])]
    simp
  have hregion : getRegion (ensureChunkExists s cr cc) (cr * 10) (cc * 10)
      (cr * 10 + 9) (cc * 10 + 9) = (G, ensureChunkExists s cr cc) := by
    rw [getRegion]
    have hcnt2 : (cr * 10 + 9 + 1 - (cr * 10)).toNat = 10 := by omega
    rw [hcnt2, region_rows_fold_const (cr * 10) (cc * 10) (cc * 10 + 9)
      (ensureChunkExists s cr cc) (fun i => G.getD i [])
      (List.range 10) [] hrow]
    rw [range_map_getD _ _ hGlen.symm]
    simp
  simp only [handleChunkRequest]
  rw [hexp, hregion]
  exact ⟨trivial, trivial, trivial, G, hG, rfl, hGlen, hGood.1.2⟩

/-- Counterexample to C9 as stated: constructing the server with chunk size
11 still yields get-chunk responses with chunk size 10 and a 10×10 grid, not
the configured S×S, because `handleChunkRequest` hardcodes 10. -/
theorem handleChunkRequest_hardcoded_counterexample :
    ¬ ((handleChunkRequest (serverInit 11 ["AB"]) 0 0).2.chunkSize = 11 ∧
       (handleChunkRequest (serverInit 11 ["AB"]) 0 0).2.data.length = 11) := by
  decide

/-- Witness for the amended C9 at chunk request (3, -2) on a freshly
constructed size-10 server game. -/
theorem handleChunkRequest_size10_witness :
    (handleChunkRequest (mkGameState 10 ["AB"]) 3 (-2)).2.chunkRow = 3 ∧
    (handleChunkRequest (mkGameState 10 ["AB"]) 3 (-2)).2.chunkCol = -2 ∧
    (handleChunkRequest (mkGameState 10 ["AB"]) 3 (-2)).2.chunkSize = 10 ∧
    ∃ grid,
      assocLookup (handleChunkRequest (mkGameState 10 ["AB"]) 3 (-2)).1.chunks
          (3, -2) = some grid ∧
      (handleChunkRequest (mkGameState 10 ["AB"]) 3 (-2)).2.data = grid ∧
      grid.length = 10 ∧ ∀ row ∈ grid, row.length = 10 :=
  handleChunkRequest_size10 ["AB"] (mkGameState 10 ["AB"]) (by decide)
    (mkGameState_reach 10 ["AB"] (by decide) (by decide)) 3 (-2)

lemma setsEqual_iff_toFinset {l1 l2 : List Pos} :
    setsEqual l1 l2 = true ↔ l1.toFinset = l2.toFinset := by
  unfold setsEqual
  rw [Bool.and_eq_true, beq_iff_eq, List.all_eq_true]
  constructor
  · rintro ⟨hlen, hsub⟩
    refine Finset.eq_of_subset_of_card_le ?_ ?_
    · intro x hx
      rw [List.mem_toFinset] at hx ⊢
      have hx' := hsub x (List.mem_dedup.mpr hx)
      exact List.mem_dedup.mp (List.elem_iff.mp hx')
    · rw [List.card_toFinset, List.card_toFinset, hlen]
  · intro h
    constructor
    · rw [← List.card_toFinset, ← List.card_toFinset, h]
    · intro x hx
      rw [List.mem_dedup] at hx
      have hx2 : x ∈ l2 := by
        rw [← List.mem_toFinset, ← h, List.mem_toFinset]
        exact hx
      exact List.elem_iff.mpr (List.mem_dedup.mpr hx2)

lemma matchEntry_of {coords pos : List Pos}
    (h : pos = coords ∨ pos.reverse = coords) :
    matchEntry coords pos = true := by
  unfold matchEntry
  rw [Bool.and_eq_true, Bool.and_eq_true, Bool.or_eq_true, beq_iff_eq,
    beq_iff_eq, beq_iff_eq]
  rcases h with rfl | h
  · exact ⟨⟨rfl, setsEqual_iff_toFinset.mpr rfl⟩, Or.inl rfl⟩
  · subst h
    refine ⟨⟨by simp, setsEqual_iff_toFinset.mpr ?_⟩, Or.inr rfl⟩
    rw [List.toFinset_reverse]

/-- "Some unfound placement with word text `w` is ledgered at key `wid`." -/
def placedUnfoundWith (s : GameState) (wid : String) (w : String) : Prop :=
  ∃ p, assocLookup s.placedWords wid = some p ∧ p.founded = false ∧ p.word = w

instance (s : GameState) (wid w : String) :
    Decidable (placedUnfoundWith s wid w) :=
  match h : assocLookup s.placedWords wid with
  | some p =>
    if hc : p.founded = false ∧ p.word = w then
      isTrue ⟨p, h, hc.1, hc.2⟩
    else
      isFalse (by
        rintro ⟨p', hp', h1, h2⟩
        rw [h] at hp'
        cases hp'
        exact hc ⟨h1, h2⟩)
  | none =>
    isFalse (by
      rintro ⟨p', hp', _, _⟩
      rw [h] at hp'
      cases hp')

/-- "Some unfound placement's stored coordinate list equals the input or its
exact reverse, and its word text is `w`." -/
def unfoundMatch (s : GameState) (coords : List Pos) (w : String) : Prop :=
  ∃ e ∈ s.wordPositions, placedUnfoundWith s e.1 w ∧
    (e.2 = coords ∨ e.2.reverse = coords)

/-- C1 as stated by the specification, at one input: `validateSelection`
returns the word text `w` of a placement iff some unfound placement's stored
coordinate list equals the input sequence exactly or equals its exact
reverse (and the input is non-empty). -/
def validateClaimStatement (s : GameState) (coords : List Pos)
    (w : String) : Prop :=
  (validateSelection s coords).1 = some w ↔
    (coords ≠ [] ∧ unfoundMatch s coords w)

lemma validateScan_hits (s : GameState) (coords : List Pos)
    (e0 : String × List Pos) (p0 : WordPlacement)
    (hmatch : matchEntry coords e0.2 = true)
    (hp : assocLookup s.placedWords e0.1 = some p0)
    (hf : p0.founded = false) :
    ∀ l, e0 ∈ l → (∀ e ∈ l, matchEntry coords e.2 = true → e = e0) →
      (validateScan s coords l).1 = some (splitUnderscoreHead e0.1) := by
  intro l
  induction l with
  | nil =>
    intro hmem _
    simp at hmem
  | cons e rest ih =>
    intro hmem huniq
    by_cases hme : matchEntry coords e.2 = true
    · have he0 : e = e0 := huniq e (List.mem_cons_self _ _) hme
      subst he0
      obtain ⟨wid, pos⟩ := e
      simp only [validateScan, if_pos hme, hp, hf]
      simp
    · obtain ⟨wid, pos⟩ := e
      simp only [validateScan, if_neg hme]
      have hmem' : e0 ∈ rest := by
        rcases List.mem_cons.mp hmem with h | h
        · exact absurd (huniq _ (List.mem_cons_self _ _) (h ▸ hmatch)) (by
            intro hx
            exact hme (hx ▸ hmatch))
        · exact h
      exact ih hmem' (fun e' he' => huniq e' (List.mem_cons_of_mem _ he'))

instance (s : GameState) (coords : List Pos) (w : String) :
    Decidable (validateClaimStatement s coords w) := by
  unfold validateClaimStatement unfoundMatch
  infer_instance

/-- Counterexample to C1 as stated.  Two reachable stores refute the iff:
with the dictionary `["X_Y"]` (underscored words are not excluded anywhere),
a correct selection answers with `wordId.split("_")[0] = "X"`, not the word
text, although an unfound placement matches; and with the dictionary
`["AA"]`, chunk (0,3) holds two placements whose cell lists are reverses of
each other (reachable because a palindromic word may overlap itself), and
after the first is claimed, re-selecting those cells answers no-match even
though the second, unfound placement's stored list reversed equals the
input. -/
theorem validateSelection_iff_counterexample :
    ¬ validateClaimStatement (mkGameState 4 ["X_Y"])
        [(2, 3), (2, 2), (2, 1)] "X_Y" ∧
    ¬ validateClaimStatement
        ((validateSelection (runOps (mkGameState 4 ["AA"]) [.genChunk 0 3])
          [(0, 13), (0, 12)]).2)
        [(0, 13), (0, 12)] "AA" := by
  constructor <;> decide

/-- C1 (amended): provided no two ledgered placements share the same cell
set and the state satisfies the engine invariant (in particular the
dictionary words contain no underscore, so `wordId.split("_")[0]` is the
word text), `validateSelection` returns the word text `w` of a placement iff
the input is non-empty and some unfound placement's stored coordinate list
equals the input sequence exactly or equals its exact reverse; every other
input returns no match. -/
theorem validateSelection_iff_amended (s : GameState) (coords : List Pos)
    (w : String) (hinv : StateInv s)
    (hdist : ∀ e1 ∈ s.wordPositions, ∀ e2 ∈ s.wordPositions,
      setsEqual e1.2 e2.2 = true → e1 = e2) :
    validateClaimStatement s coords w := by
  unfold validateClaimStatement
  constructor
  · intro h
    rw [validateSelection] at h
    split at h
    · simp at h
    · rename_i hne
      have hcoords_ne : coords ≠ [] := by simpa using hne
      rcases validateScan_cases s coords s.wordPositions with ⟨hl, _⟩ |
        ⟨wid, positions, p, hmem, hm, hp, hf, h4, _⟩
      · rw [hl] at h
        simp at h
      · rw [h4] at h
        have hw : splitUnderscoreHead wid = w := by
          simpa using h
        obtain ⟨pos', hlp, _, _, hsplit, _⟩ :=
          hinv.ledger (wid, p) (assocLookup_mem hp)
        refine ⟨hcoords_ne, (wid, positions), hmem, ⟨p, hp, hf, ?_⟩, ?_⟩
        · rw [← hsplit]
          exact hw
        · rcases (matchEntry_spec hm).2.2 with h' | h'
          · exact Or.inl h'.symm
          · exact Or.inr h'.symm
  · rintro ⟨hne, e0, hmem0, ⟨p0, hp0, hf0, hw0⟩, hord⟩
    have hmatch0 : matchEntry coords e0.2 = true := matchEntry_of hord
    have huniq : ∀ e ∈ s.wordPositions, matchEntry coords e.2 = true →
        e = e0 := by
      intro e he hme
      refine hdist e he e0 hmem0 ?_
      rw [setsEqual_iff_toFinset]
      have h1 := setsEqual_iff_toFinset.mp (matchEntry_spec hme).2.1
      have h2 := setsEqual_iff_toFinset.mp (matchEntry_spec hmatch0).2.1
      rw [← h1, h2]
    obtain ⟨pos', hlp, _, _, hsplit, _⟩ :=
      hinv.ledger (e0.1, p0) (assocLookup_mem hp0)
    rw [validateSelection, if_neg (by simpa using hne)]
    rw [validateScan_hits s coords e0 p0 hmatch0 hp0 hf0
      s.wordPositions hmem0 huniq]
    rw [hsplit, hw0]

/-- Witness for the amended C1 in a store with chunk size 2 and word list
`["AB"]`, validating the stored coordinates of `AB_1_1_0_0`. -/
theorem validateSelection_iff_amended_witness :
    validateClaimStatement (mkGameState 2 ["AB"]) [(1, 1), (1, 0)] "AB" :=
  validateSelection_iff_amended (mkGameState 2 ["AB"]) [(1, 1), (1, 0)] "AB"
    (mkGameState_reach 2 ["AB"] (by decide) (by decide)).1 (by decide)
